import Mathlib

/-!
# Verification of the node-bloomd client core

A shallow embedding, in Lean 4, of the node-bloomd client library
(`index.js` and `lib/responseParser.js`):

* the streaming response parser (`ResponseParser.prototype._transform`),
  modelled over `List Char` chunks and `String` lines;
* the static response decoders (`parseBool`, `parseBoolList`,
  `parseConfirmation`, `parseDropConfirmation`, `parseFilterList`,
  `parseInfo`);
* the client command pipeline (`_process`, `_send`, `_drain`,
  `_onReadable`) and the public command surface, parameterised over the
  callback representation;
* the safe-command coordinator (`_makeSafe`), with callbacks
  defunctionalised as an inductive type, run against a small model of the
  external bloomd server;
* a spec-modelled per-filter hold-queue extension (that machinery is not
  present in the source snapshot; only its tests are).

Theorems at the end settle the behavioural claims about the pipeline.
-/

namespace Bloomd

/-! ## Line splitting

`ResponseParser.prototype._transform` does
`this.lineData.split(/\r\n|\r|\n/g)`.  `splitLines` reproduces that split
on a character list: the separators are `\r\n` (preferred), `\r`, `\n`;
splitting the empty text yields one empty piece, and a trailing separator
yields a trailing empty piece, exactly as in JavaScript. -/

/-- Prefixing the head of a piece list with extra characters; `glue x l`
describes consing characters onto the first piece of a split. -/
def glue (x : List Char) : List (List Char) → List (List Char)
  | [] => [x]
  | p :: ps => (x ++ p) :: ps

def splitLines : List Char → List (List Char)
  | [] => [[]]
  | '\r' :: '\n' :: rest => [] :: splitLines rest
  | '\r' :: rest => [] :: splitLines rest
  | '\n' :: rest => [] :: splitLines rest
  | c :: rest => glue [c] (splitLines rest)

theorem splitLines_rn (t : List Char) :
    splitLines ('\r' :: '\n' :: t) = [] :: splitLines t := rfl

theorem splitLines_r_nil : splitLines ['\r'] = [[], []] := rfl

theorem splitLines_r (c : Char) (t : List Char) (h : c ≠ '\n') :
    splitLines ('\r' :: c :: t) = [] :: splitLines (c :: t) := by
  rw [splitLines.eq_def]
  split
  · rename_i heq; exact absurd heq (by simp)
  · rename_i x r heq
    injection heq with _ h2
    injection h2 with h2 _
    exact absurd h2 h
  · rename_i x r g heq
    injection heq with _ h2
    rw [h2]
  · rename_i x heq
    injection heq with h1 _
    exact absurd h1 (by decide)
  · rename_i a c2 r g2 g1 g0 heq
    injection heq with h1 _
    exact absurd h1.symm g1

theorem splitLines_n (t : List Char) :
    splitLines ('\n' :: t) = [] :: splitLines t := rfl

theorem splitLines_cons (c : Char) (t : List Char) (h1 : c ≠ '\r') (h2 : c ≠ '\n') :
    splitLines (c :: t) = glue [c] (splitLines t) := by
  rw [splitLines.eq_def]
  split
  · rename_i heq; exact absurd heq (by simp)
  · rename_i x r heq
    injection heq with hc _
    exact absurd hc h1
  · rename_i x r g heq
    injection heq with hc _
    exact absurd hc h1
  · rename_i x heq
    injection heq with hc _
    exact absurd hc h2
  · rename_i a c2 r g2 g1 g0 heq
    injection heq with e1 e2
    rw [← e1, ← e2]

theorem glue_ne_nil (x : List Char) (l : List (List Char)) : glue x l ≠ [] := by
  cases l <;> simp [glue]

theorem splitLines_ne_nil (cs : List Char) : splitLines cs ≠ [] := by
  rw [splitLines.eq_def]
  split
  · simp
  · simp
  · simp
  · simp
  · exact glue_ne_nil _ _

/-- Last element of a split result (the JS `lines.pop()`), with `[]` as
the (unreachable) default. -/
def lastD : List (List Char) → List Char
  | [] => []
  | [p] => p
  | _ :: p :: ps => lastD (p :: ps)

theorem lastD_cons_cons (p q : List Char) (ps : List (List Char)) :
    lastD (p :: q :: ps) = lastD (q :: ps) := rfl

theorem dropLast_cons_cons (p q : List Char) (ps : List (List Char)) :
    (p :: q :: ps).dropLast = p :: (q :: ps).dropLast := rfl

theorem lastD_append_of_ne_nil (xs ys : List (List Char)) (h : ys ≠ []) :
    lastD (xs ++ ys) = lastD ys := by
  induction xs with
  | nil => rfl
  | cons x xs ih =>
    cases xs with
    | nil =>
      cases ys with
      | nil => exact absurd rfl h
      | cons y ys => rfl
    | cons x' xs' =>
      rw [List.cons_append, List.cons_append, lastD_cons_cons, ← List.cons_append, ih]

theorem dropLast_append_of_ne_nil (xs ys : List (List Char)) (h : ys ≠ []) :
    (xs ++ ys).dropLast = xs ++ ys.dropLast := by
  induction xs with
  | nil => rfl
  | cons x xs ih =>
    cases xs with
    | nil =>
      cases ys with
      | nil => exact absurd rfl h
      | cons y ys => rfl
    | cons x' xs' =>
      rw [List.cons_append, List.cons_append, dropLast_cons_cons, ← List.cons_append, ih]
      simp

/-- How `splitLines` distributes over append, provided the left part is
free of `'\r'` (so that no `\r\n` separator straddles the boundary). -/
theorem splitLines_append (a b : List Char) (h : '\r' ∉ a) :
    splitLines (a ++ b) =
      (splitLines a).dropLast ++ glue (lastD (splitLines a)) (splitLines b) := by
  induction a with
  | nil =>
    show splitLines b = ([[]] : List (List Char)).dropLast ++ glue (lastD [[]]) (splitLines b)
    cases hb : splitLines b with
    | nil => exact absurd hb (splitLines_ne_nil b)
    | cons p ps => simp [lastD, glue]
  | cons c a ih =>
    have hc : c ≠ '\r' := fun hc => h (hc ▸ List.mem_cons_self c a)
    have ha : '\r' ∉ a := fun ha => h (List.mem_cons_of_mem c ha)
    by_cases hn : c = '\n'
    · subst hn
      rw [List.cons_append, splitLines_n, splitLines_n, ih ha]
      cases hsa : splitLines a with
      | nil => exact absurd hsa (splitLines_ne_nil a)
      | cons p ps =>
        cases ps with
        | nil => simp [lastD]
        | cons q qs => simp [dropLast_cons_cons, lastD_cons_cons]
    · rw [List.cons_append, splitLines_cons c _ hc hn, splitLines_cons c _ hc hn, ih ha]
      cases hsa : splitLines a with
      | nil => exact absurd hsa (splitLines_ne_nil a)
      | cons p ps =>
        cases ps with
        | nil =>
          cases hsb : splitLines b with
          | nil => exact absurd hsb (splitLines_ne_nil b)
          | cons q qs => simp [glue, lastD]
        | cons q qs => simp [glue, dropLast_cons_cons, lastD_cons_cons]

/-- Pieces produced by `splitLines` never contain a separator character
(auxiliary form with a fuel bound for the induction). -/
theorem splitLines_sep_free_aux (n : Nat) :
    ∀ cs : List Char, cs.length ≤ n → ∀ p ∈ splitLines cs, '\r' ∉ p ∧ '\n' ∉ p := by
  induction n with
  | zero =>
    intro cs hlen p hp
    have : cs = [] := List.eq_nil_of_length_eq_zero (Nat.le_zero.mp hlen)
    subst this
    rw [show splitLines [] = [[]] from rfl] at hp
    simp at hp
    simp [hp]
  | succ n ih =>
    intro cs hlen p hp
    match cs with
    | [] =>
      rw [show splitLines [] = [[]] from rfl] at hp
      simp at hp
      simp [hp]
    | c :: t =>
      by_cases hr : c = '\r'
      · subst hr
        match t with
        | [] =>
          rw [splitLines_r_nil] at hp
          rcases List.mem_cons.mp hp with h | h
          · simp [h]
          · simp at h; simp [h]
        | c2 :: t2 =>
          by_cases h2 : c2 = '\n'
          · subst h2
            rw [splitLines_rn] at hp
            rcases List.mem_cons.mp hp with h | h
            · simp [h]
            · exact ih t2 (by simp at hlen ⊢; omega) p h
          · rw [splitLines_r c2 t2 h2] at hp
            rcases List.mem_cons.mp hp with h | h
            · simp [h]
            · exact ih (c2 :: t2) (by simp at hlen ⊢; omega) p h
      · by_cases hn2 : c = '\n'
        · subst hn2
          rw [splitLines_n] at hp
          rcases List.mem_cons.mp hp with h | h
          · simp [h]
          · exact ih t (by simp at hlen ⊢; omega) p h
        · rw [splitLines_cons c t hr hn2] at hp
          have hrest := ih t (by simp at hlen ⊢; omega)
          cases hsr : splitLines t with
          | nil => exact absurd hsr (splitLines_ne_nil t)
          | cons q qs =>
            rw [hsr] at hp
            simp only [glue, List.singleton_append] at hp
            rcases List.mem_cons.mp hp with h | h
            · subst h
              have hq := hrest q (hsr ▸ List.mem_cons_self q qs)
              refine ⟨?_, ?_⟩
              · intro hmem
                rcases List.mem_cons.mp hmem with h | h
                · exact hr h.symm
                · exact hq.1 h
              · intro hmem
                rcases List.mem_cons.mp hmem with h | h
                · exact hn2 h.symm
                · exact hq.2 h
            · exact hrest p (hsr ▸ List.mem_cons_of_mem q h)

/-- Pieces produced by `splitLines` never contain a separator character. -/
theorem splitLines_sep_free (cs : List Char) :
    ∀ p ∈ splitLines cs, '\r' ∉ p ∧ '\n' ∉ p :=
  splitLines_sep_free_aux cs.length cs (Nat.le_refl _)

/-- Splitting separator-free text yields the single piece back. -/
theorem splitLines_of_sep_free (cs : List Char) (hr : '\r' ∉ cs) (hn : '\n' ∉ cs) :
    splitLines cs = [cs] := by
  induction cs with
  | nil => rfl
  | cons c rest ih =>
    have hc : c ≠ '\r' := fun h => hr (h ▸ List.mem_cons_self c rest)
    have hcn : c ≠ '\n' := fun h => hn (h ▸ List.mem_cons_self c rest)
    rw [splitLines_cons c rest hc hcn,
      ih (fun h => hr (List.mem_cons_of_mem c h)) (fun h => hn (List.mem_cons_of_mem c h))]
    rfl

theorem lastD_mem (p : List Char) (ps : List (List Char)) : lastD (p :: ps) ∈ p :: ps := by
  induction ps generalizing p with
  | nil => simp [lastD]
  | cons q qs ih =>
    rw [lastD_cons_cons]
    exact List.mem_cons_of_mem p (ih q)

/-- The remainder piece of a split is in particular `'\r'`-free. -/
theorem lastD_sep_free (cs : List Char) : '\r' ∉ lastD (splitLines cs) := by
  have h := splitLines_sep_free cs
  cases hs : splitLines cs with
  | nil => exact absurd hs (splitLines_ne_nil cs)
  | cons p ps => exact (h _ (hs ▸ lastD_mem p ps)).1

/-! ## Protocol frames and the block scanner

A frame is one unit of parser output: either a single response line, or
the interior lines of a `START`/`END` block (`ResponseParser` pushes the
spliced array `lines.splice(0, i + 1).slice(1, -1)`). -/

inductive Frame where
  | single (s : String)
  | block (ls : List String)
deriving DecidableEq, Repr

/-- The scan of `ResponseParser.prototype._transform`'s inner `for` loop:
the least index `i` with `k ≤ i < L.length` and `L[i] = 'END'`, if any. -/
def seekEnd (L : List String) (k : Nat) : Option Nat :=
  if k < L.length then
    if L.getD k "" = "END" then some k else seekEnd L (k + 1)
  else none
termination_by L.length - k

theorem seekEnd_of_ge (L : List String) (k : Nat) (h : L.length ≤ k) :
    seekEnd L k = none := by
  rw [seekEnd]
  rw [if_neg (by omega)]

theorem seekEnd_some_spec (L : List String) (k i : Nat) (h : seekEnd L k = some i) :
    k ≤ i ∧ i < L.length ∧ L.getD i "" = "END" := by
  by_cases hk : k < L.length
  · rw [seekEnd, if_pos hk] at h
    by_cases he : L.getD k "" = "END"
    · rw [if_pos he] at h
      injection h with h
      subst h
      exact ⟨Nat.le_refl _, hk, he⟩
    · rw [if_neg he] at h
      have := seekEnd_some_spec L (k + 1) i h
      exact ⟨Nat.le_of_succ_le this.1, this.2.1, this.2.2⟩
  · rw [seekEnd, if_neg hk] at h
    exact absurd h (by simp)
termination_by L.length - k

theorem seekEnd_min (L : List String) (k i : Nat) (h : seekEnd L k = some i) :
    ∀ j, k ≤ j → j < i → L.getD j "" ≠ "END" := by
  intro j hkj hji
  by_cases hk : k < L.length
  · rw [seekEnd, if_pos hk] at h
    by_cases he : L.getD k "" = "END"
    · rw [if_pos he] at h
      injection h with h
      omega
    · rw [if_neg he] at h
      rcases Nat.eq_or_lt_of_le hkj with heq | hlt
      · exact heq ▸ he
      · exact seekEnd_min L (k + 1) i h j hlt hji
  · rw [seekEnd, if_neg hk] at h
    exact absurd h (by simp)
termination_by L.length - k

theorem seekEnd_none_spec (L : List String) (k : Nat) (h : seekEnd L k = none) :
    ∀ j, k ≤ j → j < L.length → L.getD j "" ≠ "END" := by
  intro j hkj hjl
  by_cases hk : k < L.length
  · rw [seekEnd, if_pos hk] at h
    by_cases he : L.getD k "" = "END"
    · rw [if_pos he] at h
      exact absurd h (by simp)
    · rw [if_neg he] at h
      rcases Nat.eq_or_lt_of_le hkj with heq | hlt
      · exact heq ▸ he
      · exact seekEnd_none_spec L (k + 1) h j hlt hjl
  · omega
termination_by L.length - k

theorem seekEnd_skip (L : List String) (k m : Nat) (hkm : k ≤ m)
    (h : ∀ j, k ≤ j → j < m → L.getD j "" ≠ "END") :
    seekEnd L k = seekEnd L m := by
  rcases Nat.eq_or_lt_of_le hkm with heq | hlt
  · rw [heq]
  · by_cases hk : k < L.length
    · rw [seekEnd, if_pos hk, if_neg (h k (Nat.le_refl _) hlt)]
      exact seekEnd_skip L (k + 1) m hlt (fun j h1 h2 => h j (Nat.le_of_succ_le h1) h2)
    · rw [seekEnd_of_ge L k (by omega), seekEnd_of_ge L m (by omega)]
termination_by m - k

theorem seekEnd_append_some (L M : List String) (k i : Nat)
    (h : seekEnd L k = some i) : seekEnd (L ++ M) k = some i := by
  by_cases hk : k < L.length
  · rw [seekEnd, if_pos hk] at h
    rw [seekEnd, if_pos (by simp; omega), List.getD_append _ _ _ _ hk]
    by_cases he : L.getD k "" = "END"
    · rw [if_pos he] at h ⊢
      exact h
    · rw [if_neg he] at h ⊢
      exact seekEnd_append_some L M (k + 1) i h
  · rw [seekEnd_of_ge L k (by omega)] at h
    exact absurd h (by simp)
termination_by L.length - k

/-- The `parseLines:` loop of `_transform`: consume buffered complete
lines, emitting single-line frames, and `START`…`END` blocks as block
frames; on an incomplete block, stop and memoise the scan position in the
returned counter (the source's `this.blockLines`). -/
def parseLines : List String → Nat → List String × Nat × List Frame
  | [], b => ([], b, [])
  | l :: ls, b =>
    if l = "START" then
      match seekEnd (l :: ls) b with
      | some i =>
        let p := parseLines ((l :: ls).drop (i + 1)) 1
        (p.1, p.2.1, Frame.block (((l :: ls).take (i + 1)).drop 1).dropLast :: p.2.2)
      | none => (l :: ls, (l :: ls).length, [])
    else
      let p := parseLines ls b
      (p.1, p.2.1, Frame.single l :: p.2.2)
termination_by L _ => L.length
decreasing_by
  · simp
    omega
  · simp

theorem parseLines_nil (b : Nat) : parseLines [] b = ([], b, []) := by
  rw [parseLines.eq_def]

theorem parseLines_single (l : String) (ls : List String) (b : Nat) (h : l ≠ "START") :
    parseLines (l :: ls) b =
      ((parseLines ls b).1, (parseLines ls b).2.1,
        Frame.single l :: (parseLines ls b).2.2) := by
  rw [parseLines.eq_def]
  simp [h]

theorem parseLines_start_found (ls : List String) (b i : Nat)
    (h : seekEnd ("START" :: ls) b = some i) :
    parseLines ("START" :: ls) b =
      ((parseLines (("START" :: ls).drop (i + 1)) 1).1,
       (parseLines (("START" :: ls).drop (i + 1)) 1).2.1,
       Frame.block ((("START" :: ls).take (i + 1)).drop 1).dropLast ::
         (parseLines (("START" :: ls).drop (i + 1)) 1).2.2) := by
  rw [parseLines.eq_def]
  simp [h]

theorem parseLines_start_none (ls : List String) (b : Nat)
    (h : seekEnd ("START" :: ls) b = none) :
    parseLines ("START" :: ls) b = ("START" :: ls, ls.length + 1, []) := by
  rw [parseLines.eq_def]
  simp [h]

/-- Invariant of the line buffer and the `blockLines` memo: either the
memo is at its reset value `1`, or the buffer holds an incomplete block
(`START` first, no `END` strictly before the memoised scan position). -/
def LinesInv (L : List String) (b : Nat) : Prop :=
  b = 1 ∨ (L ≠ [] ∧ L.headD "" = "START" ∧ 1 ≤ b ∧ b ≤ L.length ∧
    ∀ j, 1 ≤ j → j < b → L.getD j "" ≠ "END")

theorem linesInv_one (L : List String) : LinesInv L 1 := Or.inl rfl

theorem linesInv_of_head_ne (l : String) (ls : List String) (b : Nat)
    (h : l ≠ "START") (hInv : LinesInv (l :: ls) b) : b = 1 := by
  rcases hInv with h1 | ⟨_, hhead, _, _, _⟩
  · exact h1
  · exact absurd hhead h

/-- The invariant survives appending fresh lines at the back of the
buffer (which is what a new chunk does). -/
theorem linesInv_append (L N : List String) (b : Nat) (hInv : LinesInv L b) :
    LinesInv (L ++ N) b := by
  rcases hInv with h1 | ⟨hne, hhead, hb1, hle, hnoend⟩
  · exact Or.inl h1
  · refine Or.inr ⟨by simp [hne], ?_, hb1, by simp; omega, ?_⟩
    · cases L with
      | nil => exact absurd rfl hne
      | cons x xs => simpa using hhead
    · intro j h1 h2
      rw [List.getD_append _ _ _ _ (by omega)]
      exact hnoend j h1 h2

theorem parseLines_inv_aux (n : Nat) :
    ∀ (L : List String) (b : Nat), L.length ≤ n → LinesInv L b →
      LinesInv (parseLines L b).1 (parseLines L b).2.1 := by
  induction n with
  | zero =>
    intro L b hlen hInv
    have : L = [] := List.eq_nil_of_length_eq_zero (Nat.le_zero.mp hlen)
    subst this
    rcases hInv with h1 | ⟨hne, _, _, _⟩
    · rw [parseLines_nil, h1]
      exact linesInv_one _
    · exact absurd rfl hne
  | succ n ih =>
    intro L b hlen hInv
    match L with
    | [] =>
      rcases hInv with h1 | ⟨hne, _, _, _, _⟩
      · rw [parseLines_nil, h1]
        exact linesInv_one _
      · exact absurd rfl hne
    | l :: ls =>
      by_cases hs : l = "START"
      · subst hs
        cases hseek : seekEnd ("START" :: ls) b with
        | some i =>
          rw [parseLines_start_found ls b i hseek]
          exact ih _ 1 (by simp at hlen ⊢; omega) (linesInv_one _)
        | none =>
          rw [parseLines_start_none ls b hseek]
          refine Or.inr ⟨by simp, by simp, by exact Nat.succ_le_succ (Nat.zero_le _), by simp, ?_⟩
          intro j h1 h2
          have hnone := seekEnd_none_spec _ _ hseek
          rcases hInv with hb1 | ⟨_, _, _, hble, hnoend⟩
          · exact hnone j (hb1 ▸ h1) (by simpa using h2)
          · by_cases hjb : j < b
            · exact hnoend j h1 hjb
            · exact hnone j (by omega) (by simpa using h2)
      · rw [parseLines_single l ls b hs]
        have hb1 := linesInv_of_head_ne l ls b hs hInv
        subst hb1
        exact ih ls 1 (by simp at hlen; omega) (linesInv_one _)

theorem parseLines_inv (L : List String) (b : Nat) (hInv : LinesInv L b) :
    LinesInv (parseLines L b).1 (parseLines L b).2.1 :=
  parseLines_inv_aux L.length L b (Nat.le_refl _) hInv

/-- If two scan positions yield the same `END` search result, the parse
is identical. -/
theorem parseLines_seek_congr (ls : List String) (b1 b2 : Nat)
    (h : seekEnd ("START" :: ls) b1 = seekEnd ("START" :: ls) b2) :
    parseLines ("START" :: ls) b1 = parseLines ("START" :: ls) b2 := by
  cases hs : seekEnd ("START" :: ls) b1 with
  | some i =>
    rw [parseLines_start_found ls b1 i hs, parseLines_start_found ls b2 i (h.symm.trans hs)]
  | none =>
    rw [parseLines_start_none ls b1 hs, parseLines_start_none ls b2 (h.symm.trans hs)]

/-- The `blockLines` memo does not change what is parsed: under the
invariant, scanning from the memo equals rescanning from position `1`
(i.e. from just after `START`). -/
theorem parseLines_memo (L : List String) (b : Nat) (hInv : LinesInv L b) :
    parseLines L b = parseLines L 1 := by
  rcases hInv with h1 | ⟨hne, hhead, hb1, hle, hnoend⟩
  · rw [h1]
  · match L with
    | [] => exact absurd rfl hne
    | l :: ls =>
      have : l = "START" := by simpa using hhead
      subst this
      refine parseLines_seek_congr ls b 1 ?_
      refine (seekEnd_skip _ 1 b hb1 ?_).symm
      intro j hj1 hjb
      exact hnoend j hj1 hjb

/-- Chunk-resumption: parsing a buffer extended with fresh lines equals
parsing the original buffer and then resuming, from the memoised
position, on the unconsumed remainder plus the fresh lines. -/
theorem parseLines_append_aux (n : Nat) :
    ∀ (L M : List String) (b : Nat), L.length ≤ n → LinesInv L b →
      parseLines (L ++ M) b =
        ((parseLines ((parseLines L b).1 ++ M) (parseLines L b).2.1).1,
         (parseLines ((parseLines L b).1 ++ M) (parseLines L b).2.1).2.1,
         (parseLines L b).2.2 ++
           (parseLines ((parseLines L b).1 ++ M) (parseLines L b).2.1).2.2) := by
  induction n with
  | zero =>
    intro L M b hlen hInv
    have : L = [] := List.eq_nil_of_length_eq_zero (Nat.le_zero.mp hlen)
    subst this
    rw [parseLines_nil]
    simp
  | succ n ih =>
    intro L M b hlen hInv
    match L with
    | [] =>
      rw [parseLines_nil]
      simp
    | l :: ls =>
      by_cases hs : l = "START"
      · subst hs
        cases hseek : seekEnd ("START" :: ls) b with
        | some i =>
          have hspec := seekEnd_some_spec _ _ _ hseek
          have hfound2 : seekEnd (("START" :: ls) ++ M) b = some i :=
            seekEnd_append_some _ M _ _ hseek
          rw [parseLines_start_found ls b i hseek]
          have happ : ("START" :: ls) ++ M = "START" :: (ls ++ M) := rfl
          rw [happ] at hfound2
          rw [happ, parseLines_start_found (ls ++ M) b i hfound2]
          have htake : ("START" :: (ls ++ M)).take (i + 1) = ("START" :: ls).take (i + 1) := by
            rw [show ("START" :: (ls ++ M)) = ("START" :: ls) ++ M from rfl]
            exact List.take_append_of_le_length (by omega)
          have hdrop : ("START" :: (ls ++ M)).drop (i + 1) =
              ("START" :: ls).drop (i + 1) ++ M := by
            rw [show ("START" :: (ls ++ M)) = ("START" :: ls) ++ M from rfl]
            exact List.drop_append_of_le_length (by omega)
          rw [htake, hdrop]
          rw [ih (("START" :: ls).drop (i + 1)) M 1 (by simp at hlen ⊢; omega) (linesInv_one _)]
          simp
        | none =>
          rw [parseLines_start_none ls b hseek]
          have hble : b ≤ ("START" :: ls).length := by
            rcases hInv with hb1 | ⟨_, _, _, hble, _⟩
            · simp [hb1]
            · exact hble
          have hskip : seekEnd ("START" :: (ls ++ M)) b =
              seekEnd ("START" :: (ls ++ M)) (ls.length + 1) := by
            refine seekEnd_skip _ b (ls.length + 1) (by simpa using hble) ?_
            intro j hjb hjlen
            rw [show ("START" :: (ls ++ M)) = ("START" :: ls) ++ M from rfl,
              List.getD_append _ _ _ _ (by simpa using hjlen)]
            exact seekEnd_none_spec _ _ hseek j hjb (by simpa using hjlen)
          have hcongr := parseLines_seek_congr (ls ++ M) b (ls.length + 1) hskip
          rw [show ("START" :: ls) ++ M = "START" :: (ls ++ M) from rfl, hcongr]
          simp
      · have hb1 := linesInv_of_head_ne l ls b hs hInv
        subst hb1
        rw [show (l :: ls) ++ M = l :: (ls ++ M) from rfl,
          parseLines_single l (ls ++ M) 1 hs, parseLines_single l ls 1 hs,
          ih ls M 1 (by simp at hlen; omega) (linesInv_one _)]
        simp

theorem parseLines_append (L M : List String) (b : Nat) (hInv : LinesInv L b) :
    parseLines (L ++ M) b =
      ((parseLines ((parseLines L b).1 ++ M) (parseLines L b).2.1).1,
       (parseLines ((parseLines L b).1 ++ M) (parseLines L b).2.1).2.1,
       (parseLines L b).2.2 ++
         (parseLines ((parseLines L b).1 ++ M) (parseLines L b).2.1).2.2) :=
  parseLines_append_aux L.length L M b (Nat.le_refl _) hInv

/-- Shape of the residual buffer after a parse: either everything was
consumed, or an incomplete block remains with the memo pointing one past
its end. -/
theorem parseLines_out_aux (n : Nat) :
    ∀ (L : List String) (b : Nat), L.length ≤ n →
      (parseLines L b).1 = [] ∨
        (∃ ls, (parseLines L b).1 = "START" :: ls ∧
          (parseLines L b).2.1 = ls.length + 1) := by
  induction n with
  | zero =>
    intro L b hlen
    have : L = [] := List.eq_nil_of_length_eq_zero (Nat.le_zero.mp hlen)
    subst this
    rw [parseLines_nil]
    exact Or.inl rfl
  | succ n ih =>
    intro L b hlen
    match L with
    | [] =>
      rw [parseLines_nil]
      exact Or.inl rfl
    | l :: ls =>
      by_cases hs : l = "START"
      · subst hs
        cases hseek : seekEnd ("START" :: ls) b with
        | some i =>
          rw [parseLines_start_found ls b i hseek]
          exact ih _ 1 (by simp at hlen ⊢; omega)
        | none =>
          rw [parseLines_start_none ls b hseek]
          exact Or.inr ⟨ls, rfl, rfl⟩
      · rw [parseLines_single l ls b hs]
        exact ih ls b (by simp at hlen; omega)

theorem parseLines_out (L : List String) (b : Nat) :
    (parseLines L b).1 = [] ∨
      (∃ ls, (parseLines L b).1 = "START" :: ls ∧
        (parseLines L b).2.1 = ls.length + 1) :=
  parseLines_out_aux L.length L b (Nat.le_refl _)

/-- The parse loop runs to quiescence: parsing its own residual buffer
again consumes nothing and emits nothing. -/
theorem parseLines_quiescent (L : List String) (b : Nat) :
    parseLines (parseLines L b).1 (parseLines L b).2.1 =
      ((parseLines L b).1, (parseLines L b).2.1, []) := by
  rcases parseLines_out L b with h | ⟨ls, h1, h2⟩
  · rw [h]
    exact parseLines_nil _
  · rw [h1, h2, parseLines_start_none ls (ls.length + 1) (seekEnd_of_ge _ _ (by simp))]

/-! ## The stream transformer

`ParserState` carries the fields of a `ResponseParser` instance:
`this.lines` (buffered complete lines), `this.lineData` (the unterminated
remainder) and `this.blockLines` (the memoised block-scan position).
`transform` is one call of `_transform` on a chunk. -/

structure ParserState where
  lines : List String := []
  lineData : List Char := []
  blockLines : Nat := 1
deriving DecidableEq, Repr

def transform (st : ParserState) (chunk : List Char) : ParserState × List Frame :=
  let pieces := splitLines (st.lineData ++ chunk)
  let p := parseLines (st.lines ++ pieces.dropLast.map String.mk) st.blockLines
  ({ lines := p.1, lineData := lastD pieces, blockLines := p.2.1 }, p.2.2)

def initParser : ParserState := {}

/-- Reachability invariant of a parser state: the line buffer and memo
satisfy `LinesInv`, the remainder contains no separator, and the line
buffer is quiescent. -/
def ParserInv (st : ParserState) : Prop :=
  LinesInv st.lines st.blockLines ∧ '\r' ∉ st.lineData ∧ '\n' ∉ st.lineData ∧
    parseLines st.lines st.blockLines = (st.lines, st.blockLines, [])

theorem initParser_inv : ParserInv initParser :=
  ⟨linesInv_one _, by simp [initParser], by simp [initParser],
    parseLines_nil _⟩

theorem lastD_splitLines_sep_free (cs : List Char) :
    '\r' ∉ lastD (splitLines cs) ∧ '\n' ∉ lastD (splitLines cs) := by
  have h := splitLines_sep_free cs
  cases hs : splitLines cs with
  | nil => exact absurd hs (splitLines_ne_nil cs)
  | cons p ps => exact h _ (hs ▸ lastD_mem p ps)

theorem transform_inv (st : ParserState) (chunk : List Char) (hInv : ParserInv st) :
    ParserInv (transform st chunk).1 := by
  obtain ⟨hLines, _, _, _⟩ := hInv
  refine ⟨?_, (lastD_splitLines_sep_free _).1, (lastD_splitLines_sep_free _).2, ?_⟩
  · exact parseLines_inv _ _ (linesInv_append _ _ _ hLines)
  · exact parseLines_quiescent _ _

/-- A transform on empty input is a no-op for a reachable state. -/
theorem transform_nil (st : ParserState) (hInv : ParserInv st) :
    transform st [] = (st, []) := by
  obtain ⟨hLines, hr, hn, hq⟩ := hInv
  simp only [transform, List.append_nil]
  rw [splitLines_of_sep_free _ hr hn]
  simp only [List.dropLast_single, List.map_nil, List.append_nil, lastD]
  rw [hq]

/-- One `_transform` call on `a ++ b` is the same as two calls on `a`
then `b`, with the emitted frames concatenated, provided `a` holds no
`'\r'` (so no `\r\n` straddles the chunk boundary). -/
theorem transform_append (st : ParserState) (a b : List Char)
    (hInv : ParserInv st) (ha : '\r' ∉ a) :
    transform st (a ++ b) =
      ((transform (transform st a).1 b).1,
       (transform st a).2 ++ (transform (transform st a).1 b).2) := by
  obtain ⟨hLines, hld, hldn, hq⟩ := hInv
  have hlda : '\r' ∉ st.lineData ++ a := by
    intro hmem
    rcases List.mem_append.mp hmem with h | h
    exacts [hld h, ha h]
  have hr1 := lastD_splitLines_sep_free (st.lineData ++ a)
  have hP2 : splitLines (lastD (splitLines (st.lineData ++ a)) ++ b)
      = glue (lastD (splitLines (st.lineData ++ a))) (splitLines b) := by
    rw [splitLines_append _ b hr1.1, splitLines_of_sep_free _ hr1.1 hr1.2]
    simp [lastD]
  have hP : splitLines (st.lineData ++ (a ++ b))
      = (splitLines (st.lineData ++ a)).dropLast ++
          splitLines (lastD (splitLines (st.lineData ++ a)) ++ b) := by
    rw [← List.append_assoc, splitLines_append _ b hlda, hP2]
  have hgne : splitLines (lastD (splitLines (st.lineData ++ a)) ++ b) ≠ [] :=
    splitLines_ne_nil _
  simp only [transform]
  rw [hP, lastD_append_of_ne_nil _ _ hgne, dropLast_append_of_ne_nil _ _ hgne,
    List.map_append, ← List.append_assoc]
  rw [parseLines_append _ _ _ (linesInv_append _ _ _ hLines)]

def feed : ParserState → List (List Char) → ParserState × List Frame
  | st, [] => (st, [])
  | st, c :: cs =>
    ((feed (transform st c).1 cs).1, (transform st c).2 ++ (feed (transform st c).1 cs).2)

theorem feed_inv (st : ParserState) (chunks : List (List Char)) (hInv : ParserInv st) :
    ParserInv (feed st chunks).1 := by
  induction chunks generalizing st with
  | nil => exact hInv
  | cons c cs ih => exact ih _ (transform_inv st c hInv)

/-- Chunking invariance: feeding the chunks one by one produces exactly
the frames of the concatenated byte stream, as long as no chunk contains
`'\r'`. -/
theorem feed_join (st : ParserState) (chunks : List (List Char)) (hInv : ParserInv st)
    (hcr : ∀ c ∈ chunks, '\r' ∉ c) :
    feed st chunks = transform st chunks.flatten := by
  induction chunks generalizing st with
  | nil =>
    rw [show ([] : List (List Char)).flatten = [] from rfl, transform_nil st hInv]
    rfl
  | cons c cs ih =>
    have hc : '\r' ∉ c := hcr c (List.mem_cons_self c cs)
    have hcs : ∀ x ∈ cs, '\r' ∉ x := fun x hx => hcr x (List.mem_cons_of_mem c hx)
    simp only [feed]
    rw [ih _ (transform_inv st c hInv) hcs,
      show (c :: cs).flatten = c ++ cs.flatten from rfl,
      transform_append st c cs.flatten hInv hc]

/-! ## Static response decoders

Embeddings of the static converters on `ResponseParser`.  A decoder
receives the frame that was read for its command; a JS `Error` whose
message is the offending text becomes `Except.error` carrying that
message (`String(array)` joins with commas, hence `frameMsg`). -/

def frameMsg : Frame → String
  | .single s => s
  | .block ls => String.intercalate "," ls

/-- `ResponseParser.parseBool`. -/
def parseBool (data : Frame) : Except String Bool :=
  if data = .single "Yes" then .ok true
  else if data = .single "No" then .ok false
  else .error (frameMsg data)

/-- Split on a single character, as JS `String.prototype.split` with a
one-character separator (used for `data.split(' ')`). -/
def splitChar (sep : Char) : List Char → List (List Char)
  | [] => [[]]
  | c :: rest =>
    if c = sep then [] :: splitChar sep rest else glue [c] (splitChar sep rest)

def splitOnSpaces (s : String) : List String :=
  (splitChar ' ' s.data).map String.mk

/-- The per-token success check of the `parseBoolList` loop: all tokens
must parse as `Yes`/`No`, else the whole line is the error. -/
def parseBoolStrs : List String → Option (List Bool)
  | [] => some []
  | v :: vs =>
    match (if v = "Yes" then some true else if v = "No" then some false else none),
        parseBoolStrs vs with
    | some b, some bs => some (b :: bs)
    | _, _ => none

/-- `results[keys[i]] = …` pairing; a JS out-of-range `keys[i]` is the
property name `"undefined"`.  (The JS object is modelled as an
association list in insertion order.) -/
def pairUp (keys : List String) : Nat → List Bool → List (String × Bool)
  | _, [] => []
  | i, b :: bs => (keys.getD i "undefined", b) :: pairUp keys (i + 1) bs

/-- `ResponseParser.parseBoolList`.  A block frame has no `.split` and
throws, surfacing as an error. -/
def parseBoolList (data : Frame) (keys : List String) :
    Except String (List (String × Bool)) :=
  match data with
  | .single s =>
    match parseBoolStrs (splitOnSpaces s) with
    | some bs => .ok (pairUp keys 0 bs)
    | none => .error s
  | .block _ => .error (frameMsg data)

/-- `ResponseParser.parseConfirmation`: only the literal `Done` succeeds. -/
def parseConfirmation (data : Frame) : Except String Bool :=
  if data = .single "Done" then .ok true else .error (frameMsg data)

/-- `ResponseParser.parseDropConfirmation`: `Done` or
`Filter does not exist` both succeed ("for drop commands, we don't care
if the filter existed or not"). -/
def parseDropConfirmation (data : Frame) : Except String Bool :=
  if data = .single "Done" ∨ data = .single "Filter does not exist" then .ok true
  else .error (frameMsg data)

/-- A named bloom filter object.  The source's `BloomFilter` carries a
set of nullable fields which `parseInfo` populates dynamically
(`filter[camelKey] = value`); those dynamic assignments are modelled as
an insertion-ordered association list with overwrite. -/
structure BloomFilter where
  name : Option String := none
  props : List (String × String) := []
deriving DecidableEq, Repr

def setProp : List (String × String) → String → String → List (String × String)
  | [], k, v => [(k, v)]
  | (k', v') :: ps, k, v =>
    if k' = k then (k, v) :: ps else (k', v') :: setProp ps k v

/-- The `key.replace(/_([a-z])/g, …toUpperCase())` snake-to-camel
conversion of `parseInfo`. -/
def camelChars : List Char → List Char
  | [] => []
  | '_' :: c :: rest =>
    if 'a' ≤ c ∧ c ≤ 'z' then c.toUpper :: camelChars rest
    else '_' :: camelChars (c :: rest)
  | c :: rest => c :: camelChars rest

def camelCase (s : String) : String := String.mk (camelChars s.data)

/-- `ResponseParser.parseFilterList`: each block line is
`name probability storage capacity size`. -/
def parseFilterList (data : Frame) : Except String (List BloomFilter) :=
  match data with
  | .block ls =>
    .ok (ls.map fun item =>
      let d := splitOnSpaces item
      { name := some (d.getD 0 "undefined"),
        props := [("probability", d.getD 1 "undefined"),
                  ("storage", d.getD 2 "undefined"),
                  ("capacity", d.getD 3 "undefined"),
                  ("size", d.getD 4 "undefined")] })
  | .single _ => .error (frameMsg data)

/-- `ResponseParser.parseInfo`: each block line is `snake_case_key value`,
assigned through the camel-case conversion; the filter name is the one
passed by the caller. -/
def parseInfo (data : Frame) (name : String) : Except String BloomFilter :=
  match data with
  | .block ls =>
    .ok { name := some name,
          props := ls.foldl (fun ps item =>
            let d := splitOnSpaces item
            setProp ps (camelCase (d.getD 0 "undefined")) (d.getD 1 "undefined")) [] }
  | .single _ => .error (frameMsg data)

/-! ## The client command pipeline

`Command` is the record `_process` builds (`arguments` includes the
verb); the callback representation `κ` is a parameter: an opaque
identifier for plain pipeline theorems, a defunctionalised closure for
the safe coordinator.  `ClientState` carries the queue fields of a
`BloomClient`; `sentLines`/`sentArgs` are a ghost trace of
`stream.write` (the latter records the same writes in token form).
Socket back-pressure is an oracle `f : Nat → Bool` giving the result of
the `n`-th `stream.write` (`commandsSent` counts exactly the writes). -/

inductive RType where
  | bool
  | boolList
  | confirmation
  | dropConfirmation
  | filterList
  | info
deriving DecidableEq, Repr

/-- The string values of `ResponseParser.responseTypes` (used verbatim in
the `Unknown response type` error message). -/
def rtName : RType → String
  | .bool => "bool"
  | .boolList => "boolList"
  | .confirmation => "confirmation"
  | .dropConfirmation => "dropConfirmation"
  | .filterList => "filterList"
  | .info => "info"

inductive RData where
  | bool (b : Bool)
  | boolList (m : List (String × Bool))
  | filters (fs : List BloomFilter)
  | info (f : BloomFilter)
deriving DecidableEq, Repr

structure Command (κ : Type) where
  arguments : List String
  responseType : RType
  callback : κ
deriving DecidableEq, Repr

structure ClientState (κ : Type) where
  ready : Bool := false
  commandQueue : List (Command κ) := []
  offlineQueue : List (Command κ) := []
  commandsSent : Nat := 0
  sentLines : List String := []
  sentArgs : List (List String) := []
deriving Repr

/-- `command.arguments.join(' ') + '\n'`. -/
def commandLine {κ : Type} (c : Command κ) : String :=
  String.intercalate " " c.arguments ++ "\n"

/-- The `switch (command.responseType)` of `_onReadable`: decode the
frame according to the expected type of the command at the head of the
queue.  There is no `case` for `DROP_CONFIRMATION`, so it falls through
to the `Unknown response type` throw. -/
def decodeFrame {κ : Type} (c : Command κ) (fr : Frame) : Except String RData :=
  match c.responseType with
  | .bool => (parseBool fr).map RData.bool
  | .boolList => (parseBoolList fr (c.arguments.drop 2)).map RData.boolList
  | .filterList => (parseFilterList fr).map RData.filters
  | .confirmation => (parseConfirmation fr).map RData.bool
  | .info => (parseInfo fr (c.arguments.getD 1 "undefined")).map RData.info
  | .dropConfirmation =>
    .error ("Unknown response type: " ++ rtName RType.dropConfirmation)

namespace BloomClient

/-- `BloomClient.prototype._send`: write the line, count it, push the
command onto the in-flight queue; a full write buffer clears `ready`. -/
def _send {κ : Type} (f : Nat → Bool) (st : ClientState κ) (c : Command κ) :
    ClientState κ × Bool :=
  let processedEntirely := f st.commandsSent
  ({ st with
      sentLines := st.sentLines ++ [commandLine c],
      sentArgs := st.sentArgs ++ [c.arguments],
      commandsSent := st.commandsSent + 1,
      commandQueue := st.commandQueue ++ [c],
      ready := if processedEntirely then st.ready else false },
   processedEntirely)

/-- `BloomClient.prototype._process`: prepend the verb, then either send
immediately or buffer offline. -/
def _process {κ : Type} (f : Nat → Bool) (st : ClientState κ) (commandName : String)
    (args : List String) (responseType : RType) (callback : κ) : ClientState κ :=
  let command : Command κ := ⟨commandName :: args, responseType, callback⟩
  if st.ready then (_send f st command).1
  else { st with offlineQueue := st.offlineQueue ++ [command] }

/-- `BloomClient.prototype._drain`: pop-and-send the offline queue; stop
(still buffering) on a full write, otherwise become ready. -/
def _drain {κ : Type} (f : Nat → Bool) (st : ClientState κ) : ClientState κ :=
  match h : st.offlineQueue with
  | [] => { st with ready := true }
  | command :: rest =>
    if (_send f { st with offlineQueue := rest } command).2 then
      _drain f (_send f { st with offlineQueue := rest } command).1
    else (_send f { st with offlineQueue := rest } command).1
termination_by st.offlineQueue.length
decreasing_by
  simp [_send, h]

/-- JS truthiness of a frame as tested by `while (response = read())`:
only the empty string is falsy (an array, even empty, is truthy). -/
def truthy : Frame → Bool
  | .single s => !(s == "")
  | .block _ => true

/-- `BloomClient.prototype._onReadable`: for each truthy frame read, pop
the head of the in-flight queue, decode, and record the callback
invocation `(callback, error-or-data)`.  A falsy frame stops the read
loop; an empty queue would crash the handler in JS and stops here. -/
def _onReadable {κ : Type} (st : ClientState κ) :
    List Frame → ClientState κ × List (κ × Except String RData)
  | [] => (st, [])
  | response :: rest =>
    if truthy response then
      match st.commandQueue with
      | [] => (st, [])
      | command :: cq =>
        let p := _onReadable { st with commandQueue := cq } rest
        (p.1, (command.callback, decodeFrame command response) :: p.2)
    else (st, [])

/-- `BloomClient.prototype.create`: options render as `k=v` tokens. -/
def create {κ : Type} (f : Nat → Bool) (st : ClientState κ) (filterName : String)
    (options : List (String × String)) (callback : κ) : ClientState κ :=
  _process f st "create" (filterName :: options.map fun kv => kv.1 ++ "=" ++ kv.2)
    .confirmation callback

/-- `BloomClient.prototype.list` (the optional argument is the name
filter). -/
def list {κ : Type} (f : Nat → Bool) (st : ClientState κ) (pre : Option String)
    (callback : κ) : ClientState κ :=
  _process f st "list" (match pre with | some p => [p] | none => []) .filterList callback

/-- `BloomClient.prototype.drop` — note the source passes
`responseTypes.CONFIRMATION`, not `DROP_CONFIRMATION`. -/
def drop {κ : Type} (f : Nat → Bool) (st : ClientState κ) (filterName : String)
    (callback : κ) : ClientState κ :=
  _process f st "drop" [filterName] .confirmation callback

def close {κ : Type} (f : Nat → Bool) (st : ClientState κ) (filterName : String)
    (callback : κ) : ClientState κ :=
  _process f st "close" [filterName] .confirmation callback

def clear {κ : Type} (f : Nat → Bool) (st : ClientState κ) (filterName : String)
    (callback : κ) : ClientState κ :=
  _process f st "clear" [filterName] .confirmation callback

def check {κ : Type} (f : Nat → Bool) (st : ClientState κ) (filterName key : String)
    (callback : κ) : ClientState κ :=
  _process f st "c" [filterName, key] .bool callback

def set {κ : Type} (f : Nat → Bool) (st : ClientState κ) (filterName key : String)
    (callback : κ) : ClientState κ :=
  _process f st "s" [filterName, key] .bool callback

/-- `BloomClient.prototype.multi`: `keys.unshift(filterName)` then send
`m` (value-level form; the in-place aliasing is modelled separately). -/
def multi {κ : Type} (f : Nat → Bool) (st : ClientState κ) (filterName : String)
    (keys : List String) (callback : κ) : ClientState κ :=
  _process f st "m" (filterName :: keys) .boolList callback

def bulk {κ : Type} (f : Nat → Bool) (st : ClientState κ) (filterName : String)
    (keys : List String) (callback : κ) : ClientState κ :=
  _process f st "b" (filterName :: keys) .boolList callback

def info {κ : Type} (f : Nat → Bool) (st : ClientState κ) (filterName : String)
    (callback : κ) : ClientState κ :=
  _process f st "info" [filterName] .info callback

def flush {κ : Type} (f : Nat → Bool) (st : ClientState κ) (filterName : Option String)
    (callback : κ) : ClientState κ :=
  _process f st "flush" (match filterName with | some p => [p] | none => [])
    .confirmation callback

end BloomClient

/-- Write oracle for a connected stream that accepts every write. -/
def okWrites : Nat → Bool := fun _ => true

/-! ## The safe-command coordinator

`_makeSafe(command)` wraps a verb: on `Filter does not exist` it creates
the filter and re-runs the original command (whose trailing argument is
still the interceptor closure).  The closures are defunctionalised:
`Cb.safe` is the interceptor pushed by `_makeSafe`, `Cb.createCb` the
callback handed to `self.create`, and `Cb.user` the caller's callback
(whose invocations are recorded as events). -/

inductive SafeVerb where
  | set
  | check
  | bulk
  | multi
  | info
deriving DecidableEq, Repr

inductive SafePayload where
  | key (k : String)
  | keys (ks : List String)
  | noArg
deriving DecidableEq, Repr

inductive Cb where
  | user (uid : Nat)
  | safe (v : SafeVerb) (filterName : String) (p : SafePayload)
      (createOptions : List (String × String)) (k : Cb)
  | createCb (v : SafeVerb) (filterName : String) (p : SafePayload)
      (createOptions : List (String × String)) (k : Cb)
deriving DecidableEq, Repr

/-- `command.apply(self, args)`: dispatch back into the wrapped prototype
method with the retained argument list. -/
def verbApply (f : Nat → Bool) (v : SafeVerb) (filterName : String) (p : SafePayload)
    (cb : Cb) (st : ClientState Cb) : ClientState Cb :=
  match v, p with
  | .set, .key k => BloomClient.set f st filterName k cb
  | .check, .key k => BloomClient.check f st filterName k cb
  | .bulk, .keys ks => BloomClient.bulk f st filterName ks cb
  | .multi, .keys ks => BloomClient.multi f st filterName ks cb
  | .info, .noArg => BloomClient.info f st filterName cb
  | _, _ => st

/-- Calling a `*Safe` method: `_makeSafe` pops the callback (and the
optional `createOptions`), pushes the interceptor, and executes the
wrapped command. -/
def safeCall (v : SafeVerb) (filterName : String) (p : SafePayload)
    (createOptions : List (String × String)) (userCb : Nat) (st : ClientState Cb) :
    ClientState Cb :=
  verbApply okWrites v filterName p (.safe v filterName p createOptions (.user userCb)) st

/-- A client/server/event system: the client plus an environment `σ`
answering writes in order (`answered` counts responses consumed). -/
structure Sys (σ : Type) where
  client : ClientState Cb
  env : σ
  answered : Nat := 0
  events : List (Nat × Except String RData) := []

/-- Run a defunctionalised callback on a decoded response. -/
def runCb {σ : Type} : Cb → Except String RData → Sys σ → Sys σ
  | .user uid, res, s => { s with events := s.events ++ [(uid, res)] }
  | .safe v filterName p opts k, res, s =>
    match res with
    | .error e =>
      if e = "Filter does not exist" then
        let cl := BloomClient.create okWrites s.client filterName opts
          (.createCb v filterName p opts k)
        { s with client := cl }
      else runCb k res s
    | .ok _ => runCb k res s
  | .createCb v filterName p opts k, res, s =>
    match res with
    | .error _ => runCb k res s
    | .ok _ =>
      let cl := verbApply okWrites v filterName p (.safe v filterName p opts k) s.client
      { s with client := cl }

/-- One round trip: the environment answers the oldest unanswered write;
the client reads that frame (`_onReadable`), popping the in-flight head,
and the resulting callback runs. -/
def sysStep {σ : Type} (respond : σ → List String → σ × String) (s : Sys σ) : Sys σ :=
  match s.client.sentArgs.get? s.answered with
  | none => s
  | some args =>
    let r := respond s.env args
    let q := BloomClient._onReadable s.client [Frame.single r.2]
    let s1 : Sys σ := { s with env := r.1, answered := s.answered + 1, client := q.1 }
    match q.2 with
    | [] => s1
    | (cb, res) :: _ => runCb cb res s1

def drive {σ : Type} (respond : σ → List String → σ × String) : Nat → Sys σ → Sys σ
  | 0, s => s
  | n + 1, s => drive respond n (sysStep respond s)

/-! ## A model of the external bloomd service

The server is out of the repository's scope; this responder is modelled
from the spec's wire-protocol table (§6): `create` answers `Done`, or
`Exists` for a present filter; `s`/`c` answer `Yes`/`No`, or
`Filter does not exist` for an absent filter. -/

def alistGet {α : Type} : List (String × α) → String → Option α
  | [], _ => none
  | (k, v) :: ps, name => if k = name then some v else alistGet ps name

def alistSet {α : Type} : List (String × α) → String → α → List (String × α)
  | [], name, x => [(name, x)]
  | (k, v) :: ps, name, x =>
    if k = name then (name, x) :: ps else (k, v) :: alistSet ps name x

def alistRemove {α : Type} : List (String × α) → String → List (String × α)
  | [], _ => []
  | (k, v) :: ps, name => if k = name then ps else (k, v) :: alistRemove ps name

structure BloomdServer where
  filters : List (String × List String) := []
deriving Repr

/-- Modelled from the spec: the response behaviour of the external bloomd
server for the verbs the safe scenarios exercise (spec §6). -/
def serverRespond (sv : BloomdServer) (args : List String) : BloomdServer × String :=
  match args with
  | "create" :: name :: _ =>
    (match alistGet sv.filters name with
     | some _ => (sv, "Exists")
     | none => ({ filters := alistSet sv.filters name [] }, "Done"))
  | "s" :: name :: key :: _ =>
    (match alistGet sv.filters name with
     | none => (sv, "Filter does not exist")
     | some ks =>
       if key ∈ ks then (sv, "No")
       else ({ filters := alistSet sv.filters name (key :: ks) }, "Yes"))
  | "c" :: name :: key :: _ =>
    (match alistGet sv.filters name with
     | none => (sv, "Filter does not exist")
     | some ks => if key ∈ ks then (sv, "Yes") else (sv, "No"))
  | _ => (sv, "Client Error: Command not supported")

/-- A canned-response environment: answers with the scripted lines in
order, regardless of the request. -/
def scriptRespond (rs : List String) (args : List String) : List String × String :=
  (rs.drop 1, rs.headD "")

theorem alistGet_set_self {α : Type} (l : List (String × α)) (k : String) (x : α) :
    alistGet (alistSet l k x) k = some x := by
  induction l with
  | nil => simp [alistSet, alistGet]
  | cons p ps ih =>
    by_cases h : p.1 = k
    · simp [alistSet, h, alistGet]
    · simp [alistSet, h, alistGet, ih]

/-! ## Spec-modelled per-filter hold queues

The source snapshot does not implement `filterHoldQueues` (its TODO list
still reads "Maintain order of commands on a filter, even when using
*safe"); only the repository's tests exercise that behaviour.  The
machinery below is therefore modelled from the spec: submission step 2 of
§4.E (hold any non-`create`, non-internal command for a filter with an
existing hold queue) and the coordinator procedure of §4.G (create the
queue on safe dispatch; on completion, after the user callback, remove
the queue and resubmit its records FIFO via the normal path). -/

/-- Modelled from the spec: a Command Record with its `filterName` field
(§3), as needed by the hold-queue check. -/
structure HCommand where
  verb : String
  filterName : Option String
  arguments : List String
  responseType : RType
  callback : Cb
deriving Repr

/-- Modelled from the spec: client state extended with
`filterHoldQueues` keyed by filter name (§3). -/
structure HState where
  ready : Bool := false
  commandQueue : List HCommand := []
  offlineQueue : List HCommand := []
  filterHoldQueues : List (String × List HCommand) := []
  commandsSent : Nat := 0
  sentArgs : List (List String) := []
deriving Repr

def hSend (st : HState) (c : HCommand) : HState :=
  { st with
      sentArgs := st.sentArgs ++ [c.arguments],
      commandsSent := st.commandsSent + 1,
      commandQueue := st.commandQueue ++ [c] }

/-- Modelled from the spec: the submission procedure of §4.E with the
hold-queue check (step 2); `internal` marks the coordinator's
resubmission, which bypasses the check (§4.G step 4). -/
def hSubmit (internal : Bool) (st : HState) (c : HCommand) : HState :=
  if !internal && c.verb != "create" &&
      (match c.filterName with
       | some fn => (alistGet st.filterHoldQueues fn).isSome
       | none => false) then
    match c.filterName with
    | some fn =>
      let hq := alistSet st.filterHoldQueues fn
        ((alistGet st.filterHoldQueues fn).getD [] ++ [c])
      { st with filterHoldQueues := hq }
    | none => st
  else if st.ready then hSend st c
  else { st with offlineQueue := st.offlineQueue ++ [c] }

def hVerbCommand (v : SafeVerb) (filterName : String) (p : SafePayload) (cb : Cb) :
    HCommand :=
  match v, p with
  | .set, .key k => ⟨"s", some filterName, ["s", filterName, k], .bool, cb⟩
  | .check, .key k => ⟨"c", some filterName, ["c", filterName, k], .bool, cb⟩
  | .bulk, .keys ks => ⟨"b", some filterName, "b" :: filterName :: ks, .boolList, cb⟩
  | .multi, .keys ks => ⟨"m", some filterName, "m" :: filterName :: ks, .boolList, cb⟩
  | .info, .noArg => ⟨"info", some filterName, ["info", filterName], .info, cb⟩
  | _, _ => ⟨"", none, [], .bool, cb⟩

def hCreateCommand (filterName : String) (options : List (String × String)) (cb : Cb) :
    HCommand :=
  ⟨"create", some filterName,
    "create" :: filterName :: options.map (fun kv => kv.1 ++ "=" ++ kv.2),
    .confirmation, cb⟩

/-- Modelled from the spec: §4.G steps 1–3 — ensure the hold queue
exists, then submit the original command (as the coordinator's own
submission, so it is not held by the queue it just created). -/
def hSafeCall (v : SafeVerb) (filterName : String) (p : SafePayload)
    (opts : List (String × String)) (uid : Nat) (st : HState) : HState :=
  let st1 :=
    if (alistGet st.filterHoldQueues filterName).isSome then st
    else { st with filterHoldQueues := alistSet st.filterHoldQueues filterName [] }
  hSubmit true st1 (hVerbCommand v filterName p (.safe v filterName p opts (.user uid)))

/-- Modelled from the spec: §4.G step 5 — after the user callback, remove
the filter's hold queue and resubmit each held record via the normal
path, in FIFO order. -/
def hRelease (filterName : String) (st : HState) : HState :=
  match alistGet st.filterHoldQueues filterName with
  | none => st
  | some held =>
    held.foldl (fun acc c => hSubmit false acc c)
      { st with filterHoldQueues := alistRemove st.filterHoldQueues filterName }

structure HSys where
  client : HState
  script : List String
  answered : Nat := 0
  events : List (Nat × Except String RData) := []

/-- Modelled from the spec: run a callback in the hold-queue system; the
release step fires after the user callback in every completing branch. -/
def runHCb : Cb → Except String RData → HSys → HSys
  | .user uid, res, s => { s with events := s.events ++ [(uid, res)] }
  | .safe v filterName p opts k, res, s =>
    match res with
    | .error e =>
      if e = "Filter does not exist" then
        let cl := hSubmit true s.client
          (hCreateCommand filterName opts (.createCb v filterName p opts k))
        { s with client := cl }
      else
        let s1 := runHCb k res s
        { s1 with client := hRelease filterName s1.client }
    | .ok _ =>
      let s1 := runHCb k res s
      { s1 with client := hRelease filterName s1.client }
  | .createCb v filterName p opts k, res, s =>
    match res with
    | .error _ =>
      let s1 := runHCb k res s
      { s1 with client := hRelease filterName s1.client }
    | .ok _ =>
      let cl := hSubmit true s.client (hVerbCommand v filterName p (.safe v filterName p opts k))
      { s with client := cl }

def hDecode (c : HCommand) (fr : Frame) : Except String RData :=
  decodeFrame (⟨c.arguments, c.responseType, c.callback⟩ : Command Cb) fr

def hStep (s : HSys) : HSys :=
  match s.client.sentArgs.get? s.answered with
  | none => s
  | some _ =>
    let resp := s.script.headD ""
    let s0 : HSys := { s with script := s.script.drop 1, answered := s.answered + 1 }
    match s0.client.commandQueue with
    | [] => s0
    | c :: cq =>
      runHCb c.callback (hDecode c (Frame.single resp))
        { s0 with client := { s0.client with commandQueue := cq } }

def hDrive : Nat → HSys → HSys
  | 0, s => s
  | n + 1, s => hDrive n (hStep s)

/-! ## Heap model for the in-place `unshift` of `multi`/`bulk`

`multi` and `bulk` mutate the caller's `keys` array in place
(`keys.unshift(filterName)`, then `args.unshift(commandName)` inside
`_process`) and store that same array object as `command.arguments`.
Arrays are modelled as slots of a store, commands hold the slot index. -/

structure Heap where
  arrays : List (List String)
deriving DecidableEq, Repr

def heapGet (h : Heap) (r : Nat) : List String := h.arrays.getD r []

def heapSet (h : Heap) (r : Nat) (v : List String) : Heap := ⟨h.arrays.set r v⟩

/-- `arr.unshift(x)` on the array in slot `r`. -/
def unshiftRef (h : Heap) (r : Nat) (x : String) : Heap :=
  heapSet h r (x :: heapGet h r)

/-- A command record holding a reference to (not a copy of) its argument
array. -/
structure RefCommand where
  argumentsRef : Nat
  responseType : RType
  callback : Nat
deriving DecidableEq, Repr

/-- `_process` on a by-reference argument array: `args.unshift(commandName)`
and the record's `arguments` is the same array object. -/
def processRef (h : Heap) (commandName : String) (argsRef : Nat) (rt : RType)
    (cb : Nat) : Heap × RefCommand :=
  (unshiftRef h argsRef commandName, ⟨argsRef, rt, cb⟩)

/-- `BloomClient.prototype.multi`: `keys.unshift(filterName)` then
`_process('m', keys, …)` — both mutations hit the caller's array. -/
def multiRef (h : Heap) (filterName : String) (keysRef : Nat) (cb : Nat) :
    Heap × RefCommand :=
  processRef (unshiftRef h keysRef filterName) "m" keysRef .boolList cb

/-- `BloomClient.prototype.bulk`, likewise with verb `b`. -/
def bulkRef (h : Heap) (filterName : String) (keysRef : Nat) (cb : Nat) :
    Heap × RefCommand :=
  processRef (unshiftRef h keysRef filterName) "b" keysRef .boolList cb

/-! ## Pipeline lemmas -/

/-- A submission request (one public-API call) with its callback id. -/
structure Req where
  name : String
  args : List String
  responseType : RType
  callback : Nat
deriving DecidableEq, Repr

/-- The command record `_process` builds for a request. -/
def mkCommand (r : Req) : Command Nat :=
  ⟨r.name :: r.args, r.responseType, r.callback⟩

def processAll (f : Nat → Bool) (st : ClientState Nat) (reqs : List Req) :
    ClientState Nat :=
  reqs.foldl (fun acc r => BloomClient._process f acc r.name r.args r.responseType r.callback) st

/-- Submitting while ready (with a write buffer that keeps up) appends
the command records to the in-flight queue in submission order. -/
theorem processAll_ready (st : ClientState Nat) (reqs : List Req)
    (hready : st.ready = true) :
    (processAll okWrites st reqs).commandQueue = st.commandQueue ++ reqs.map mkCommand ∧
      (processAll okWrites st reqs).ready = true := by
  induction reqs generalizing st with
  | nil => simpa [processAll] using hready
  | cons r rs ih =>
    have hstep := ih (BloomClient._process okWrites st r.name r.args r.responseType r.callback)
    simp only [processAll, List.foldl_cons] at *
    rw [BloomClient._process, if_pos hready] at hstep ⊢
    have h := hstep (by simp [BloomClient._send, okWrites, hready])
    rw [h.1]
    refine ⟨?_, h.2⟩
    simp [BloomClient._send, mkCommand]

/-- Submitting while not ready only appends to the offline queue. -/
theorem processAll_offline (f : Nat → Bool) (st : ClientState Nat) (reqs : List Req)
    (hnr : st.ready = false) :
    processAll f st reqs = { st with offlineQueue := st.offlineQueue ++ reqs.map mkCommand } := by
  induction reqs generalizing st with
  | nil => simp [processAll]
  | cons r rs ih =>
    simp only [processAll, List.foldl_cons] at *
    rw [BloomClient._process, if_neg (by simp [hnr])]
    rw [ih _ (by simp [hnr])]
    simp [mkCommand]

/-- The read loop pairs the queued commands with the frames positionally
and pops once per frame. -/
theorem onReadable_zip {κ : Type} (fs : List Frame) (st : ClientState κ)
    (htruthy : ∀ fr ∈ fs, BloomClient.truthy fr = true)
    (hlen : fs.length ≤ st.commandQueue.length) :
    (BloomClient._onReadable st fs).2 =
        (st.commandQueue.zip fs).map (fun cf => (cf.1.callback, decodeFrame cf.1 cf.2)) ∧
      (BloomClient._onReadable st fs).1 =
        { st with commandQueue := st.commandQueue.drop fs.length } := by
  induction fs generalizing st with
  | nil =>
    refine ⟨by simp [BloomClient._onReadable], ?_⟩
    simp [BloomClient._onReadable]
  | cons fr rest ih =>
    rw [BloomClient._onReadable]
    rw [if_pos (htruthy fr (List.mem_cons_self fr rest))]
    match hq : st.commandQueue with
    | [] => simp [hq] at hlen
    | command :: cq =>
      have hrest := ih { st with commandQueue := cq }
        (fun x hx => htruthy x (List.mem_cons_of_mem fr hx))
        (by simp; rw [hq] at hlen; simp at hlen; omega)
      refine ⟨?_, ?_⟩
      · simp only [hrest.1]
        simp [hq]
      · simp only [hrest.2]
        simp [hq]

/-- `_onReadable` only ever pops from the in-flight queue; the rest of
the state (in particular `commandsSent`) is untouched. -/
theorem onReadable_pops {κ : Type} (fs : List Frame) (st : ClientState κ) :
    ∃ k, (BloomClient._onReadable st fs).1.commandQueue = st.commandQueue.drop k ∧
      (BloomClient._onReadable st fs).1.commandsSent = st.commandsSent := by
  induction fs generalizing st with
  | nil => exact ⟨0, by simp [BloomClient._onReadable], by simp [BloomClient._onReadable]⟩
  | cons fr rest ih =>
    rw [BloomClient._onReadable]
    by_cases ht : BloomClient.truthy fr
    · rw [if_pos ht]
      cases hq : st.commandQueue with
      | nil =>
        refine ⟨0, ?_, ?_⟩ <;> simp [hq]
      | cons command cq =>
        obtain ⟨k, hk1, hk2⟩ := ih { st with commandQueue := cq }
        refine ⟨k + 1, ?_, ?_⟩
        · simp only [hq]
          simpa using hk1
        · simp only [hq]
          simpa using hk2
    · rw [if_neg ht]
      exact ⟨0, by simp, rfl⟩

/-- `_drain` moves some prefix of the offline queue into the in-flight
queue, incrementing `commandsSent` once per record moved. -/
theorem drain_delta_aux {κ : Type} (f : Nat → Bool) (n : Nat) :
    ∀ st : ClientState κ, st.offlineQueue.length ≤ n →
      ∃ new, (BloomClient._drain f st).commandQueue = st.commandQueue ++ new ∧
        (BloomClient._drain f st).commandsSent = st.commandsSent + new.length := by
  induction n with
  | zero =>
    intro st hlen
    have h0 : st.offlineQueue = [] :=
      List.eq_nil_of_length_eq_zero (Nat.le_zero.mp hlen)
    rw [BloomClient._drain.eq_def]
    split
    · exact ⟨[], by simp⟩
    · rename_i c rest heq
      rw [h0] at heq
      exact absurd heq (by simp)
  | succ n ih =>
    intro st hlen
    rw [BloomClient._drain.eq_def]
    split
    · exact ⟨[], by simp⟩
    · rename_i c rest heq
      by_cases hw : f st.commandsSent
      · have hsend : (BloomClient._send f { st with offlineQueue := rest } c).2 = true := by
          simp [BloomClient._send, hw]
        rw [hsend]
        simp only [if_true]
        obtain ⟨new, h1, h2⟩ := ih (BloomClient._send f { st with offlineQueue := rest } c).1
          (by simp [BloomClient._send]; rw [heq] at hlen; simp at hlen; omega)
        refine ⟨c :: new, ?_, ?_⟩
        · rw [h1]
          simp [BloomClient._send]
        · rw [h2]
          simp [BloomClient._send]
          omega
      · have hsend : (BloomClient._send f { st with offlineQueue := rest } c).2 = false := by
          simp [BloomClient._send, hw]
        rw [hsend]
        simp only [Bool.false_eq_true, if_false]
        refine ⟨[c], ?_, ?_⟩
        · simp [BloomClient._send]
        · simp [BloomClient._send]

theorem drain_delta {κ : Type} (f : Nat → Bool) (st : ClientState κ) :
    ∃ new, (BloomClient._drain f st).commandQueue = st.commandQueue ++ new ∧
      (BloomClient._drain f st).commandsSent = st.commandsSent + new.length :=
  drain_delta_aux f st.offlineQueue.length st (Nat.le_refl _)

/-- When every write is accepted, the drain writes the whole offline
queue front-to-back, appends it to the in-flight queue in that order,
and marks the client ready. -/
theorem drain_all_ok_aux {κ : Type} (f : Nat → Bool) (n : Nat) :
    ∀ st : ClientState κ, st.offlineQueue.length ≤ n →
      (∀ j, j < st.offlineQueue.length → f (st.commandsSent + j) = true) →
      BloomClient._drain f st =
        { st with
            ready := true,
            offlineQueue := [],
            commandQueue := st.commandQueue ++ st.offlineQueue,
            commandsSent := st.commandsSent + st.offlineQueue.length,
            sentLines := st.sentLines ++ st.offlineQueue.map commandLine,
            sentArgs := st.sentArgs ++ st.offlineQueue.map (fun c => c.arguments) } := by
  induction n with
  | zero =>
    intro st hlen hok
    have h0 : st.offlineQueue = [] :=
      List.eq_nil_of_length_eq_zero (Nat.le_zero.mp hlen)
    rw [BloomClient._drain.eq_def]
    split
    · simp [h0]
    · rename_i c rest heq
      rw [h0] at heq
      exact absurd heq (by simp)
  | succ n ih =>
    intro st hlen hok
    rw [BloomClient._drain.eq_def]
    split
    · rename_i heq
      simp [heq]
    · rename_i c rest heq
      have hw : f st.commandsSent = true := by
        have := hok 0 (by rw [heq]; simp)
        simpa using this
      have hsend2 : (BloomClient._send f { st with offlineQueue := rest } c).2 = true := by
        simp [BloomClient._send, hw]
      rw [hsend2]
      simp only [if_true]
      rw [ih (BloomClient._send f { st with offlineQueue := rest } c).1
        (by simp [BloomClient._send]; rw [heq] at hlen; simp at hlen; omega)
        (by
          intro j hj
          simp only [BloomClient._send] at hj ⊢
          have := hok (j + 1) (by rw [heq]; simp at hj ⊢; omega)
          rw [show st.commandsSent + 1 + j = st.commandsSent + (j + 1) by omega]
          exact this)]
      simp only [BloomClient._send, hw, if_true, heq]
      simp only [ClientState.mk.injEq]
      refine ⟨by trivial, by simp, by trivial, ?_, by simp, by simp⟩
      simp only [List.length_cons]
      omega

/-- A rejected write stops the drain: the failing command (like those
before it) has been written and queued, the rest of the offline queue is
retained, and the client is left buffering (`ready = false`). -/
theorem drain_stops_at_fail {κ : Type} (f : Nat → Bool) :
    ∀ (j : Nat) (st : ClientState κ), j < st.offlineQueue.length →
      (∀ i, i < j → f (st.commandsSent + i) = true) → f (st.commandsSent + j) = false →
      BloomClient._drain f st =
        { st with
            ready := false,
            offlineQueue := st.offlineQueue.drop (j + 1),
            commandQueue := st.commandQueue ++ st.offlineQueue.take (j + 1),
            commandsSent := st.commandsSent + (j + 1),
            sentLines := st.sentLines ++ (st.offlineQueue.take (j + 1)).map commandLine,
            sentArgs := st.sentArgs ++
              (st.offlineQueue.take (j + 1)).map (fun c => c.arguments) } := by
  intro j
  induction j with
  | zero =>
    intro st hj hpre hfail
    rw [BloomClient._drain.eq_def]
    split
    · rename_i heq
      rw [heq] at hj
      simp at hj
    · rename_i c rest heq
      have hfail2 : f st.commandsSent = false := by simpa using hfail
      have hsend2 : (BloomClient._send f { st with offlineQueue := rest } c).2 = false := by
        simpa [BloomClient._send] using hfail
      rw [hsend2]
      simp only [Bool.false_eq_true, if_false]
      simp [BloomClient._send, heq, hfail2]
  | succ j ihj =>
    intro st hj hpre hfail
    rw [BloomClient._drain.eq_def]
    split
    · rename_i heq
      rw [heq] at hj
      simp at hj
    · rename_i c rest heq
      have hw : f st.commandsSent = true := by
        have := hpre 0 (by omega)
        simpa using this
      have hsend2 : (BloomClient._send f { st with offlineQueue := rest } c).2 = true := by
        simp [BloomClient._send, hw]
      rw [hsend2]
      simp only [if_true]
      rw [ihj (BloomClient._send f { st with offlineQueue := rest } c).1
        (by simp [BloomClient._send]; rw [heq] at hj; simp at hj; omega)
        (by
          intro i hi
          simp only [BloomClient._send]
          have := hpre (i + 1) (by omega)
          rw [show st.commandsSent + 1 + i = st.commandsSent + (i + 1) by omega]
          exact this)
        (by
          simp only [BloomClient._send]
          rw [show st.commandsSent + 1 + j = st.commandsSent + (j + 1) by omega]
          exact hfail)]
      simp only [BloomClient._send, hw, if_true, heq]
      simp only [ClientState.mk.injEq]
      refine ⟨by trivial, by simp [List.take_succ_cons], by simp [List.drop_succ_cons], ?_,
        by simp [List.take_succ_cons], by simp [List.take_succ_cons]⟩
      omega

/-! ## Claim theorems -/

/-- One scheduler-visible operation on the client pipeline. -/
inductive CStep (κ : Type) where
  | process (name : String) (args : List String) (rt : RType) (cb : κ)
  | drain
  | onReadable (frames : List Frame)

def stepFn {κ : Type} (f : Nat → Bool) (st : ClientState κ) : CStep κ → ClientState κ
  | .process n a r c => BloomClient._process f st n a r c
  | .drain => BloomClient._drain f st
  | .onReadable fs => (BloomClient._onReadable st fs).1

/-- C9: in every client state and for every pipeline operation, the
change in `commandsSent` equals the number of records the operation
appends to the in-flight queue `commandQueue` (and operations either
only append or only pop): `commandsSent` counts exactly the records ever
appended to the in-flight queue. -/
theorem c9_commands_sent_counts_in_flight_appends {κ : Type} (f : Nat → Bool)
    (st : ClientState κ) (s : CStep κ) :
    ∃ (new : List (Command κ)) (k : Nat),
      (stepFn f st s).commandQueue = st.commandQueue.drop k ++ new ∧
      (stepFn f st s).commandsSent = st.commandsSent + new.length ∧
      (k = 0 ∨ new = []) := by
  match s with
  | .process n a r c =>
    rw [stepFn, BloomClient._process]
    by_cases hr : st.ready
    · rw [if_pos hr]
      exact ⟨[⟨n :: a, r, c⟩], 0, by simp [BloomClient._send], by simp [BloomClient._send],
        Or.inl rfl⟩
    · rw [if_neg hr]
      exact ⟨[], 0, by simp, by simp, Or.inl rfl⟩
  | .drain =>
    obtain ⟨new, h1, h2⟩ := drain_delta f st
    exact ⟨new, 0, by simpa [stepFn] using h1, by simpa [stepFn] using h2, Or.inl rfl⟩
  | .onReadable fs =>
    obtain ⟨k, hk1, hk2⟩ := onReadable_pops fs st
    refine ⟨[], k, ?_, ?_, Or.inr rfl⟩
    · rw [stepFn, hk1]
      simp
    · rw [stepFn, hk2]
      simp

/-- C5 counterexample: the command record built by `create` carries the
plain `CONFIRMATION` response type, whose decoder rejects the reply
`Exists`: the reply decodes to an error carrying `Exists`, not to the
success value `true`. -/
theorem c5_create_exists_counterexample :
    ((BloomClient.create okWrites ({ ready := true } : ClientState Nat) "foo" [] 0).commandQueue.map
        (fun c => (c.responseType, decodeFrame c (Frame.single "Exists")))) =
      [(RType.confirmation, Except.error "Exists")] ∧
    (Except.error "Exists" : Except String RData) ≠ Except.ok (RData.bool true) := by
  exact ⟨rfl, by simp⟩

/-- C5 (amended): `create` uses the `CONFIRMATION` decoder, so only the
reply `Done` is decoded as the success value `true`; any other reply —
`Exists` included — yields an error carrying that text. -/
theorem c5_create_confirmation_decoding (st : ClientState Nat) (filterName : String)
    (options : List (String × String)) (cb : Nat) (d : String)
    (hready : st.ready = true) :
    ∃ cmd : Command Nat,
      (BloomClient.create okWrites st filterName options cb).commandQueue =
          st.commandQueue ++ [cmd] ∧
        cmd.responseType = RType.confirmation ∧
        decodeFrame cmd (Frame.single d) =
          (if d = "Done" then Except.ok (RData.bool true) else Except.error d) := by
  refine ⟨⟨"create" :: filterName :: options.map (fun kv => kv.1 ++ "=" ++ kv.2),
    RType.confirmation, cb⟩, ?_, rfl, ?_⟩
  · rw [BloomClient.create, BloomClient._process, if_pos hready]
    simp [BloomClient._send]
  · rw [decodeFrame]
    by_cases hd : d = "Done"
    · simp [parseConfirmation, hd, Except.map]
    · simp [parseConfirmation, hd, frameMsg, Except.map]

theorem c5_witness :
    ∃ cmd : Command Nat,
      (BloomClient.create okWrites ({ ready := true } : ClientState Nat) "foo" [] 7).commandQueue =
          ({ ready := true } : ClientState Nat).commandQueue ++ [cmd] ∧
        cmd.responseType = RType.confirmation ∧
        decodeFrame cmd (Frame.single "Exists") =
          (if "Exists" = "Done" then Except.ok (RData.bool true) else Except.error "Exists") :=
  c5_create_confirmation_decoding { ready := true } "foo" [] 7 "Exists" rfl

/-- C6: the claim matches the parser's dedicated `parseDropConfirmation`
(present in the source and documented for drop commands), but `drop`
passes the plain `CONFIRMATION` type, so the reply
`Filter does not exist` is delivered as an error, not as success. -/
theorem c6_drop_missing_filter_is_error :
    ((BloomClient.drop okWrites ({ ready := true } : ClientState Nat) "foo" 0).commandQueue.map
        (fun c => (c.responseType, decodeFrame c (Frame.single "Filter does not exist")))) =
      [(RType.confirmation, Except.error "Filter does not exist")] ∧
    parseDropConfirmation (Frame.single "Filter does not exist") = Except.ok true ∧
    (Except.error "Filter does not exist" : Except String RData) ≠
      Except.ok (RData.bool true) := by
  refine ⟨rfl, rfl, by simp⟩

/-- C10: `multi`/`bulk` mutate the caller's keys array in place — after
the call the caller's slot holds the verb, then the filter name, then the
original keys — and the command record's argument array is that very
slot. -/
theorem c10_multi_bulk_mutate_in_place (h : Heap) (filterName : String) (keysRef : Nat)
    (cb : Nat) (hr : keysRef < h.arrays.length) :
    heapGet (multiRef h filterName keysRef cb).1 keysRef =
        "m" :: filterName :: heapGet h keysRef ∧
      (multiRef h filterName keysRef cb).2.argumentsRef = keysRef ∧
      heapGet (bulkRef h filterName keysRef cb).1 keysRef =
        "b" :: filterName :: heapGet h keysRef ∧
      (bulkRef h filterName keysRef cb).2.argumentsRef = keysRef := by
  have hgetset : ∀ (hp : Heap) (v : List String), keysRef < hp.arrays.length →
      heapGet (heapSet hp keysRef v) keysRef = v := by
    intro hp v hlt
    rw [heapGet, heapSet, List.getD_eq_getElem _ _ (by simpa using hlt)]
    simp [List.getElem_set]
  have hlen1 : ∀ (hp : Heap) (v : List String),
      (heapSet hp keysRef v).arrays.length = hp.arrays.length := by
    intro hp v
    simp [heapSet]
  refine ⟨?_, rfl, ?_, rfl⟩
  · rw [multiRef, processRef]
    simp only [unshiftRef]
    rw [hgetset _ _ (by rw [hlen1]; exact hr), hgetset _ _ hr]
  · rw [bulkRef, processRef]
    simp only [unshiftRef]
    rw [hgetset _ _ (by rw [hlen1]; exact hr), hgetset _ _ hr]

/-- C2: on each chunk the parser appends to the remainder and splits on
`\r\n`/`\r`/`\n`, keeping the last split element as the new remainder;
a buffered line other than `START` is emitted as a single-line frame; a
leading `START` with a following `END` emits the strictly-interior lines
as one block frame, the two markers discarded, with `END` the first one
after `START`; and the `blockLines` memo changes nothing about what is
parsed (resuming equals rescanning from just past `START`), the frames
being produced in FIFO list order.  The reachability invariant is
preserved. -/
theorem c2_response_parser_transform (st : ParserState) (chunk : List Char)
    (hInv : ParserInv st) :
    ((transform st chunk).1.lineData = lastD (splitLines (st.lineData ++ chunk))) ∧
    ((transform st chunk).1.lines =
      (parseLines (st.lines ++ (splitLines (st.lineData ++ chunk)).dropLast.map String.mk)
        st.blockLines).1) ∧
    (transform st chunk = transform { st with blockLines := 1 } chunk) ∧
    ParserInv (transform st chunk).1 ∧
    (∀ (l : String) (ls : List String) (b : Nat), l ≠ "START" →
      (parseLines (l :: ls) b).2.2 = Frame.single l :: (parseLines ls b).2.2) ∧
    (∀ (ls : List String) (i : Nat), seekEnd ("START" :: ls) 1 = some i →
      ("START" :: ls).getD i "" = "END" ∧
      (∀ j, 1 ≤ j → j < i → ("START" :: ls).getD j "" ≠ "END") ∧
      (parseLines ("START" :: ls) 1).2.2 =
        Frame.block ((("START" :: ls).take (i + 1)).drop 1).dropLast ::
          (parseLines (("START" :: ls).drop (i + 1)) 1).2.2) := by
  refine ⟨rfl, rfl, ?_, transform_inv st chunk hInv, ?_, ?_⟩
  · simp only [transform]
    rw [parseLines_memo _ _ (linesInv_append _ _ _ hInv.1)]
  · intro l ls b h
    rw [parseLines_single l ls b h]
  · intro ls i h
    have hspec := seekEnd_some_spec _ _ _ h
    refine ⟨hspec.2.2, seekEnd_min _ _ _ h, ?_⟩
    rw [parseLines_start_found ls 1 i h]

theorem c2_witness :
    (((transform initParser "START\na b\nEN".data).1.lineData =
        lastD (splitLines (initParser.lineData ++ "START\na b\nEN".data))) ∧
      ((transform initParser "START\na b\nEN".data).1.lines =
        (parseLines (initParser.lines ++
            (splitLines (initParser.lineData ++ "START\na b\nEN".data)).dropLast.map String.mk)
          initParser.blockLines).1) ∧
      (transform initParser "START\na b\nEN".data =
        transform { initParser with blockLines := 1 } "START\na b\nEN".data) ∧
      ParserInv (transform initParser "START\na b\nEN".data).1 ∧
      (∀ (l : String) (ls : List String) (b : Nat), l ≠ "START" →
        (parseLines (l :: ls) b).2.2 = Frame.single l :: (parseLines ls b).2.2) ∧
      (∀ (ls : List String) (i : Nat), seekEnd ("START" :: ls) 1 = some i →
        ("START" :: ls).getD i "" = "END" ∧
        (∀ j, 1 ≤ j → j < i → ("START" :: ls).getD j "" ≠ "END") ∧
        (parseLines ("START" :: ls) 1).2.2 =
          Frame.block ((("START" :: ls).take (i + 1)).drop 1).dropLast ::
            (parseLines (("START" :: ls).drop (i + 1)) 1).2.2)) :=
  c2_response_parser_transform initParser "START\na b\nEN".data initParser_inv

/-- C1: with `N` commands submitted on a connected client (initially
empty in-flight queue, write buffer keeping up), and for every chunking
of the server's response bytes (which, per the wire protocol, contain no
`'\r'` and no empty lines): the parser emits exactly the frames of the
concatenated bytes regardless of chunking, the in-flight queue holds the
command records in submission order, and the receive loop pops the head
of the queue once per frame, invoking the i-th callback (in submission
order) with the decoded result of the i-th response frame. -/
theorem c1_fifo_matching (reqs : List Req) (chunks : List (List Char))
    (st0 : ClientState Nat)
    (hready : st0.ready = true) (hq0 : st0.commandQueue = [])
    (hcr : ∀ c ∈ chunks, '\r' ∉ c)
    (htruthy : ∀ fr ∈ (transform initParser chunks.flatten).2, BloomClient.truthy fr = true)
    (hlen : (transform initParser chunks.flatten).2.length ≤ reqs.length) :
    ((feed initParser chunks).2 = (transform initParser chunks.flatten).2) ∧
    ((processAll okWrites st0 reqs).commandQueue = reqs.map mkCommand) ∧
    ((BloomClient._onReadable (processAll okWrites st0 reqs) (feed initParser chunks).2).2 =
      ((reqs.map mkCommand).zip (transform initParser chunks.flatten).2).map
        (fun cf => (cf.1.callback, decodeFrame cf.1 cf.2))) ∧
    (∀ i, i < (transform initParser chunks.flatten).2.length →
      ((BloomClient._onReadable (processAll okWrites st0 reqs)
          (feed initParser chunks).2).2).getD i (0, Except.error "") =
        ((reqs.getD i ⟨"", [], RType.bool, 0⟩).callback,
          decodeFrame (mkCommand (reqs.getD i ⟨"", [], RType.bool, 0⟩))
            ((transform initParser chunks.flatten).2.getD i (Frame.single "")))) := by
  have hframes := congrArg Prod.snd (feed_join initParser chunks initParser_inv hcr)
  have hqueue := processAll_ready st0 reqs hready
  have hq : (processAll okWrites st0 reqs).commandQueue = reqs.map mkCommand := by
    rw [hqueue.1, hq0]
    simp
  have hzip := onReadable_zip (feed initParser chunks).2 (processAll okWrites st0 reqs)
    (by rw [hframes]; exact htruthy)
    (by rw [hframes, hq]; simpa using hlen)
  refine ⟨hframes, hq, ?_, ?_⟩
  · rw [hzip.1, hq, hframes]
  · intro i hi
    rw [hzip.1, hq, hframes]
    have hir : i < reqs.length := lt_of_lt_of_le hi hlen
    have hzl : i < (((reqs.map mkCommand).zip
        (transform initParser chunks.flatten).2).map
          (fun cf => (cf.1.callback, decodeFrame cf.1 cf.2))).length := by
      simp only [List.length_map, List.length_zip]
      omega
    rw [List.getD_eq_getElem _ _ hzl, List.getElem_map, List.getElem_zip,
      List.getD_eq_getElem _ _ hir, List.getD_eq_getElem _ _ hi]
    simp [mkCommand]

theorem framesOfYesNo :
    (transform initParser ["Yes\nN".data, "o\n".data].flatten).2 =
      [Frame.single "Yes", Frame.single "No"] := by
  have h1 : ["Yes\nN".data, "o\n".data].flatten = "Yes\nNo\n".data := by decide
  rw [h1, transform]
  have h2 : initParser.lines ++
      (splitLines (initParser.lineData ++ "Yes\nNo\n".data)).dropLast.map String.mk =
        ["Yes", "No"] := by decide
  simp only [h2, show initParser.blockLines = 1 from rfl]
  rw [parseLines_single "Yes" ["No"] 1 (by decide),
    parseLines_single "No" [] 1 (by decide), parseLines_nil]

theorem c1_witness :
    (((feed initParser ["Yes\nN".data, "o\n".data]).2 =
        (transform initParser ["Yes\nN".data, "o\n".data].flatten).2) ∧
      ((processAll okWrites ({ ready := true } : ClientState Nat)
          [⟨"c", ["f", "k1"], RType.bool, 1⟩, ⟨"c", ["f", "k2"], RType.bool, 2⟩]).commandQueue =
        ([⟨"c", ["f", "k1"], RType.bool, 1⟩, ⟨"c", ["f", "k2"], RType.bool, 2⟩] :
          List Req).map mkCommand) ∧
      ((BloomClient._onReadable
          (processAll okWrites ({ ready := true } : ClientState Nat)
            [⟨"c", ["f", "k1"], RType.bool, 1⟩, ⟨"c", ["f", "k2"], RType.bool, 2⟩])
          (feed initParser ["Yes\nN".data, "o\n".data]).2).2 =
        ((([⟨"c", ["f", "k1"], RType.bool, 1⟩, ⟨"c", ["f", "k2"], RType.bool, 2⟩] :
              List Req).map mkCommand).zip
            (transform initParser ["Yes\nN".data, "o\n".data].flatten).2).map
          (fun cf => (cf.1.callback, decodeFrame cf.1 cf.2))) ∧
      (∀ i, i < (transform initParser ["Yes\nN".data, "o\n".data].flatten).2.length →
        ((BloomClient._onReadable
            (processAll okWrites ({ ready := true } : ClientState Nat)
              [⟨"c", ["f", "k1"], RType.bool, 1⟩, ⟨"c", ["f", "k2"], RType.bool, 2⟩])
            (feed initParser ["Yes\nN".data, "o\n".data]).2).2).getD i (0, Except.error "") =
          ((([⟨"c", ["f", "k1"], RType.bool, 1⟩, ⟨"c", ["f", "k2"], RType.bool, 2⟩] :
                List Req).getD i ⟨"", [], RType.bool, 0⟩).callback,
            decodeFrame (mkCommand (([⟨"c", ["f", "k1"], RType.bool, 1⟩,
                ⟨"c", ["f", "k2"], RType.bool, 2⟩] : List Req).getD i ⟨"", [], RType.bool, 0⟩))
              ((transform initParser ["Yes\nN".data, "o\n".data].flatten).2.getD i
                (Frame.single ""))))) :=
  c1_fifo_matching [⟨"c", ["f", "k1"], RType.bool, 1⟩, ⟨"c", ["f", "k2"], RType.bool, 2⟩]
    ["Yes\nN".data, "o\n".data] { ready := true } rfl rfl (by decide)
    (by rw [framesOfYesNo]; decide) (by rw [framesOfYesNo]; decide)

/-- C8: commands submitted while the client is not ready are appended to
the offline queue in submission order and nothing reaches the wire; on
connect, `_drain` pops the front repeatedly and writes — if every write
is accepted, the buffered commands reach the wire and the in-flight
queue in submission order (so their callbacks fire in that order, last
conjunct) and the client becomes ready; if the `j`-th write reports a
full buffer the drain stops with the remaining commands still queued and
the client stays buffering. -/
theorem c8_offline_buffering (st0 : ClientState Nat) (reqs : List Req) (f : Nat → Bool)
    (hnr : st0.ready = false) (hoff : st0.offlineQueue = []) :
    (processAll f st0 reqs = { st0 with offlineQueue := reqs.map mkCommand }) ∧
    ((∀ j, j < reqs.length → f (st0.commandsSent + j) = true) →
      BloomClient._drain f (processAll f st0 reqs) =
        { st0 with
            ready := true,
            offlineQueue := [],
            commandQueue := st0.commandQueue ++ reqs.map mkCommand,
            commandsSent := st0.commandsSent + reqs.length,
            sentLines := st0.sentLines ++ (reqs.map mkCommand).map commandLine,
            sentArgs := st0.sentArgs ++
              (reqs.map mkCommand).map (fun c => c.arguments) }) ∧
    (∀ j, j < reqs.length → (∀ i, i < j → f (st0.commandsSent + i) = true) →
      f (st0.commandsSent + j) = false →
      BloomClient._drain f (processAll f st0 reqs) =
        { st0 with
            ready := false,
            offlineQueue := (reqs.map mkCommand).drop (j + 1),
            commandQueue := st0.commandQueue ++ (reqs.map mkCommand).take (j + 1),
            commandsSent := st0.commandsSent + (j + 1),
            sentLines := st0.sentLines ++
              ((reqs.map mkCommand).take (j + 1)).map commandLine,
            sentArgs := st0.sentArgs ++
              ((reqs.map mkCommand).take (j + 1)).map (fun c => c.arguments) }) ∧
    (∀ fs : List Frame, (∀ fr ∈ fs, BloomClient.truthy fr = true) →
      fs.length ≤ st0.commandQueue.length + reqs.length →
      (∀ j, j < reqs.length → f (st0.commandsSent + j) = true) →
      (BloomClient._onReadable (BloomClient._drain f (processAll f st0 reqs)) fs).2 =
        ((st0.commandQueue ++ reqs.map mkCommand).zip fs).map
          (fun cf => (cf.1.callback, decodeFrame cf.1 cf.2))) := by
  have hbuf : processAll f st0 reqs = { st0 with offlineQueue := reqs.map mkCommand } := by
    rw [processAll_offline f st0 reqs hnr, hoff]
    simp
  have hdrain : (∀ j, j < reqs.length → f (st0.commandsSent + j) = true) →
      BloomClient._drain f (processAll f st0 reqs) =
        { st0 with
            ready := true,
            offlineQueue := [],
            commandQueue := st0.commandQueue ++ reqs.map mkCommand,
            commandsSent := st0.commandsSent + reqs.length,
            sentLines := st0.sentLines ++ (reqs.map mkCommand).map commandLine,
            sentArgs := st0.sentArgs ++
              (reqs.map mkCommand).map (fun c => c.arguments) } := by
    intro hok
    rw [hbuf, drain_all_ok_aux f (reqs.map mkCommand).length _ (by simp)
      (by simpa using hok)]
    simp
  refine ⟨hbuf, hdrain, ?_, ?_⟩
  · intro j hj hpre hfail
    rw [hbuf, drain_stops_at_fail f j _ (by simpa using hj) (by simpa using hpre)
      (by simpa using hfail)]
  · intro fs htruthy hlen hok
    rw [hdrain hok]
    exact (onReadable_zip fs _ htruthy (by simpa using hlen)).1

theorem c8_witness :
    (BloomClient._drain (fun n => decide (n = 0))
        (processAll (fun n => decide (n = 0)) ({} : ClientState Nat)
          [⟨"s", ["f", "k1"], RType.bool, 1⟩, ⟨"s", ["f", "k2"], RType.bool, 2⟩])).ready =
        false ∧
      (BloomClient._drain (fun n => decide (n = 0))
          (processAll (fun n => decide (n = 0)) ({} : ClientState Nat)
            [⟨"s", ["f", "k1"], RType.bool, 1⟩,
              ⟨"s", ["f", "k2"], RType.bool, 2⟩])).offlineQueue = [] ∧
      (BloomClient._drain (fun n => decide (n = 0))
          (processAll (fun n => decide (n = 0)) ({} : ClientState Nat)
            [⟨"s", ["f", "k1"], RType.bool, 1⟩,
              ⟨"s", ["f", "k2"], RType.bool, 2⟩])).commandsSent = 2 := by
  have h := (c8_offline_buffering ({} : ClientState Nat)
    [⟨"s", ["f", "k1"], RType.bool, 1⟩, ⟨"s", ["f", "k2"], RType.bool, 2⟩]
    (fun n => decide (n = 0)) rfl rfl).2.2.1 1 (by decide)
    (fun i hi => by
      have h0 : i = 0 := by omega
      subst h0
      decide)
    (by decide)
  rw [h]
  exact ⟨rfl, by decide, by decide⟩

/-- C3: a `setSafe(F, K)` whose original `s F K` is answered
`Filter does not exist` submits a `create F` with the supplied options;
when the create succeeds the original set is resubmitted, so the wire
carries the set, then the create, then the set again, and the user
callback receives the successful result of the retried set (`Yes`,
decoded as `true`).  A `check(F, K)` issued afterwards returns `true`. -/
theorem c3_safe_create_retry (F K : String) (opts : List (String × String))
    (uid uid2 : Nat) (sv0 : BloomdServer) (hF : alistGet sv0.filters F = none) :
    (sysStep serverRespond (sysStep serverRespond (sysStep serverRespond
        { client := safeCall SafeVerb.set F (SafePayload.key K) opts uid { ready := true },
          env := sv0, answered := 0, events := [] }))).client.sentArgs =
      [["s", F, K], "create" :: F :: opts.map (fun kv => kv.1 ++ "=" ++ kv.2),
        ["s", F, K]] ∧
    (sysStep serverRespond (sysStep serverRespond (sysStep serverRespond
        { client := safeCall SafeVerb.set F (SafePayload.key K) opts uid { ready := true },
          env := sv0, answered := 0, events := [] }))).events =
      [(uid, Except.ok (RData.bool true))] ∧
    (sysStep serverRespond
        { sysStep serverRespond (sysStep serverRespond (sysStep serverRespond
            { client := safeCall SafeVerb.set F (SafePayload.key K) opts uid { ready := true },
              env := sv0, answered := 0, events := [] })) with
          client := BloomClient.check okWrites
            (sysStep serverRespond (sysStep serverRespond (sysStep serverRespond
              { client := safeCall SafeVerb.set F (SafePayload.key K) opts uid
                  { ready := true },
                env := sv0, answered := 0, events := [] }))).client F K
            (Cb.user uid2) }).events =
      [(uid, Except.ok (RData.bool true)), (uid2, Except.ok (RData.bool true))] := by
  have hC1 : safeCall SafeVerb.set F (SafePayload.key K) opts uid { ready := true } = ({ ready := true, commandQueue := [(⟨["s", F, K], RType.bool, Cb.safe SafeVerb.set F (SafePayload.key K) opts (Cb.user uid)⟩ : Command Cb)], offlineQueue := [], commandsSent := 1, sentLines := [String.intercalate " " ["s", F, K] ++ "\n"], sentArgs := [["s", F, K]] } : ClientState Cb) := by
    simp [safeCall, verbApply, BloomClient.set, BloomClient._process, BloomClient._send, okWrites, commandLine]
  have hs1 : sysStep serverRespond ({ client := ({ ready := true, commandQueue := [(⟨["s", F, K], RType.bool, Cb.safe SafeVerb.set F (SafePayload.key K) opts (Cb.user uid)⟩ : Command Cb)], offlineQueue := [], commandsSent := 1, sentLines := [String.intercalate " " ["s", F, K] ++ "\n"], sentArgs := [["s", F, K]] } : ClientState Cb), env := sv0, answered := 0, events := [] } : Sys BloomdServer) = ({ client := ({ ready := true, commandQueue := [(⟨"create" :: F :: opts.map (fun kv => kv.1 ++ "=" ++ kv.2), RType.confirmation, Cb.createCb SafeVerb.set F (SafePayload.key K) opts (Cb.user uid)⟩ : Command Cb)], offlineQueue := [], commandsSent := 2, sentLines := [String.intercalate " " ["s", F, K] ++ "\n", String.intercalate " " ("create" :: F :: opts.map (fun kv => kv.1 ++ "=" ++ kv.2)) ++ "\n"], sentArgs := [["s", F, K], "create" :: F :: opts.map (fun kv => kv.1 ++ "=" ++ kv.2)] } : ClientState Cb), env := sv0, answered := 1, events := [] } : Sys BloomdServer) := by
    simp [sysStep, serverRespond, hF, alistGet_set_self, BloomClient._onReadable, BloomClient.truthy, decodeFrame, parseBool, parseConfirmation, frameMsg, runCb, BloomClient.create, BloomClient.set, BloomClient.check, verbApply, BloomClient._process, BloomClient._send, okWrites, commandLine, Except.map]
  have hs2 : sysStep serverRespond ({ client := ({ ready := true, commandQueue := [(⟨"create" :: F :: opts.map (fun kv => kv.1 ++ "=" ++ kv.2), RType.confirmation, Cb.createCb SafeVerb.set F (SafePayload.key K) opts (Cb.user uid)⟩ : Command Cb)], offlineQueue := [], commandsSent := 2, sentLines := [String.intercalate " " ["s", F, K] ++ "\n", String.intercalate " " ("create" :: F :: opts.map (fun kv => kv.1 ++ "=" ++ kv.2)) ++ "\n"], sentArgs := [["s", F, K], "create" :: F :: opts.map (fun kv => kv.1 ++ "=" ++ kv.2)] } : ClientState Cb), env := sv0, answered := 1, events := [] } : Sys BloomdServer) = ({ client := ({ ready := true, commandQueue := [(⟨["s", F, K], RType.bool, Cb.safe SafeVerb.set F (SafePayload.key K) opts (Cb.user uid)⟩ : Command Cb)], offlineQueue := [], commandsSent := 3, sentLines := [String.intercalate " " ["s", F, K] ++ "\n", String.intercalate " " ("create" :: F :: opts.map (fun kv => kv.1 ++ "=" ++ kv.2)) ++ "\n", String.intercalate " " ["s", F, K] ++ "\n"], sentArgs := [["s", F, K], "create" :: F :: opts.map (fun kv => kv.1 ++ "=" ++ kv.2), ["s", F, K]] } : ClientState Cb), env := ({ filters := alistSet sv0.filters F [] } : BloomdServer), answered := 2, events := [] } : Sys BloomdServer) := by
    simp [sysStep, serverRespond, hF, alistGet_set_self, BloomClient._onReadable, BloomClient.truthy, decodeFrame, parseBool, parseConfirmation, frameMsg, runCb, BloomClient.create, BloomClient.set, BloomClient.check, verbApply, BloomClient._process, BloomClient._send, okWrites, commandLine, Except.map]
  have hs3 : sysStep serverRespond ({ client := ({ ready := true, commandQueue := [(⟨["s", F, K], RType.bool, Cb.safe SafeVerb.set F (SafePayload.key K) opts (Cb.user uid)⟩ : Command Cb)], offlineQueue := [], commandsSent := 3, sentLines := [String.intercalate " " ["s", F, K] ++ "\n", String.intercalate " " ("create" :: F :: opts.map (fun kv => kv.1 ++ "=" ++ kv.2)) ++ "\n", String.intercalate " " ["s", F, K] ++ "\n"], sentArgs := [["s", F, K], "create" :: F :: opts.map (fun kv => kv.1 ++ "=" ++ kv.2), ["s", F, K]] } : ClientState Cb), env := ({ filters := alistSet sv0.filters F [] } : BloomdServer), answered := 2, events := [] } : Sys BloomdServer) = ({ client := ({ ready := true, commandQueue := [], offlineQueue := [], commandsSent := 3, sentLines := [String.intercalate " " ["s", F, K] ++ "\n", String.intercalate " " ("create" :: F :: opts.map (fun kv => kv.1 ++ "=" ++ kv.2)) ++ "\n", String.intercalate " " ["s", F, K] ++ "\n"], sentArgs := [["s", F, K], "create" :: F :: opts.map (fun kv => kv.1 ++ "=" ++ kv.2), ["s", F, K]] } : ClientState Cb), env := ({ filters := alistSet (alistSet sv0.filters F []) F [K] } : BloomdServer), answered := 3, events := [(uid, Except.ok (RData.bool true))] } : Sys BloomdServer) := by
    simp [sysStep, serverRespond, hF, alistGet_set_self, BloomClient._onReadable, BloomClient.truthy, decodeFrame, parseBool, parseConfirmation, frameMsg, runCb, BloomClient.create, BloomClient.set, BloomClient.check, verbApply, BloomClient._process, BloomClient._send, okWrites, commandLine, Except.map]
  have hchk : BloomClient.check okWrites ({ ready := true, commandQueue := [], offlineQueue := [], commandsSent := 3, sentLines := [String.intercalate " " ["s", F, K] ++ "\n", String.intercalate " " ("create" :: F :: opts.map (fun kv => kv.1 ++ "=" ++ kv.2)) ++ "\n", String.intercalate " " ["s", F, K] ++ "\n"], sentArgs := [["s", F, K], "create" :: F :: opts.map (fun kv => kv.1 ++ "=" ++ kv.2), ["s", F, K]] } : ClientState Cb) F K (Cb.user uid2) = ({ ready := true, commandQueue := [(⟨["c", F, K], RType.bool, Cb.user uid2⟩ : Command Cb)], offlineQueue := [], commandsSent := 4, sentLines := [String.intercalate " " ["s", F, K] ++ "\n", String.intercalate " " ("create" :: F :: opts.map (fun kv => kv.1 ++ "=" ++ kv.2)) ++ "\n", String.intercalate " " ["s", F, K] ++ "\n", String.intercalate " " ["c", F, K] ++ "\n"], sentArgs := [["s", F, K], "create" :: F :: opts.map (fun kv => kv.1 ++ "=" ++ kv.2), ["s", F, K], ["c", F, K]] } : ClientState Cb) := by
    simp [BloomClient.check, BloomClient._process, BloomClient._send, okWrites, commandLine]
  have hs4 : sysStep serverRespond ({ client := ({ ready := true, commandQueue := [(⟨["c", F, K], RType.bool, Cb.user uid2⟩ : Command Cb)], offlineQueue := [], commandsSent := 4, sentLines := [String.intercalate " " ["s", F, K] ++ "\n", String.intercalate " " ("create" :: F :: opts.map (fun kv => kv.1 ++ "=" ++ kv.2)) ++ "\n", String.intercalate " " ["s", F, K] ++ "\n", String.intercalate " " ["c", F, K] ++ "\n"], sentArgs := [["s", F, K], "create" :: F :: opts.map (fun kv => kv.1 ++ "=" ++ kv.2), ["s", F, K], ["c", F, K]] } : ClientState Cb), env := ({ filters := alistSet (alistSet sv0.filters F []) F [K] } : BloomdServer), answered := 3, events := [(uid, Except.ok (RData.bool true))] } : Sys BloomdServer) = ({ client := ({ ready := true, commandQueue := [], offlineQueue := [], commandsSent := 4, sentLines := [String.intercalate " " ["s", F, K] ++ "\n", String.intercalate " " ("create" :: F :: opts.map (fun kv => kv.1 ++ "=" ++ kv.2)) ++ "\n", String.intercalate " " ["s", F, K] ++ "\n", String.intercalate " " ["c", F, K] ++ "\n"], sentArgs := [["s", F, K], "create" :: F :: opts.map (fun kv => kv.1 ++ "=" ++ kv.2), ["s", F, K], ["c", F, K]] } : ClientState Cb), env := ({ filters := alistSet (alistSet sv0.filters F []) F [K] } : BloomdServer), answered := 4, events := [(uid, Except.ok (RData.bool true)), (uid2, Except.ok (RData.bool true))] } : Sys BloomdServer) := by
    simp [sysStep, serverRespond, hF, alistGet_set_self, BloomClient._onReadable, BloomClient.truthy, decodeFrame, parseBool, parseConfirmation, frameMsg, runCb, BloomClient.create, BloomClient.set, BloomClient.check, verbApply, BloomClient._process, BloomClient._send, okWrites, commandLine, Except.map]
  refine ⟨?_, ?_, ?_⟩
  · rw [hC1, hs1, hs2, hs3]
  · rw [hC1, hs1, hs2, hs3]
  · rw [hC1, hs1, hs2, hs3]
    show (sysStep serverRespond { (({ client := ({ ready := true, commandQueue := [], offlineQueue := [], commandsSent := 3, sentLines := [String.intercalate " " ["s", F, K] ++ "\n", String.intercalate " " ("create" :: F :: opts.map (fun kv => kv.1 ++ "=" ++ kv.2)) ++ "\n", String.intercalate " " ["s", F, K] ++ "\n"], sentArgs := [["s", F, K], "create" :: F :: opts.map (fun kv => kv.1 ++ "=" ++ kv.2), ["s", F, K]] } : ClientState Cb), env := ({ filters := alistSet (alistSet sv0.filters F []) F [K] } : BloomdServer), answered := 3, events := [(uid, Except.ok (RData.bool true))] } : Sys BloomdServer) : Sys BloomdServer) with client := BloomClient.check okWrites ({ ready := true, commandQueue := [], offlineQueue := [], commandsSent := 3, sentLines := [String.intercalate " " ["s", F, K] ++ "\n", String.intercalate " " ("create" :: F :: opts.map (fun kv => kv.1 ++ "=" ++ kv.2)) ++ "\n", String.intercalate " " ["s", F, K] ++ "\n"], sentArgs := [["s", F, K], "create" :: F :: opts.map (fun kv => kv.1 ++ "=" ++ kv.2), ["s", F, K]] } : ClientState Cb) F K (Cb.user uid2) }).events = _
    rw [hchk]
    rw [hs4]

theorem c3_witness :
    (sysStep serverRespond (sysStep serverRespond (sysStep serverRespond
        { client := safeCall SafeVerb.set "f" (SafePayload.key "k") [] 1 { ready := true },
          env := ({} : BloomdServer), answered := 0, events := [] }))).client.sentArgs =
      [["s", "f", "k"],
        "create" :: "f" :: ([] : List (String × String)).map (fun kv => kv.1 ++ "=" ++ kv.2),
        ["s", "f", "k"]] ∧
    (sysStep serverRespond (sysStep serverRespond (sysStep serverRespond
        { client := safeCall SafeVerb.set "f" (SafePayload.key "k") [] 1 { ready := true },
          env := ({} : BloomdServer), answered := 0, events := [] }))).events =
      [(1, Except.ok (RData.bool true))] ∧
    (sysStep serverRespond
        { sysStep serverRespond (sysStep serverRespond (sysStep serverRespond
            { client := safeCall SafeVerb.set "f" (SafePayload.key "k") [] 1 { ready := true },
              env := ({} : BloomdServer), answered := 0, events := [] })) with
          client := BloomClient.check okWrites
            (sysStep serverRespond (sysStep serverRespond (sysStep serverRespond
              { client := safeCall SafeVerb.set "f" (SafePayload.key "k") [] 1
                  { ready := true },
                env := ({} : BloomdServer), answered := 0, events := [] }))).client "f" "k"
            (Cb.user 2) }).events =
      [(1, Except.ok (RData.bool true)), (2, Except.ok (RData.bool true))] :=
  c3_safe_create_retry "f" "k" [] 1 2 {} rfl

/-- C7: for a `*Safe` command whose original submission failed with
`Filter does not exist`, the callback handed to the automatic `create`
delivers a creation failure to the user callback verbatim (first
conjunct, any safe verb); end to end, a `setSafe` whose create is
answered with a non-`Done` line (for example
`Client Error: Bad arguments`) invokes the user callback with that
creation-failure error, not with the original
`Filter does not exist`. -/
theorem c7_safe_create_failure_surfaced (F K : String) (opts : List (String × String))
    (uid : Nat) (e2 : String) (he2 : e2 ≠ "Done") (he0 : e2 ≠ "") :
    (∀ (σ : Type) (v : SafeVerb) (F2 : String) (p : SafePayload)
        (opts2 : List (String × String)) (uid2 : Nat) (s : Sys σ) (e : String),
      runCb (Cb.createCb v F2 p opts2 (Cb.user uid2)) (Except.error e) s =
        { s with events := s.events ++ [(uid2, Except.error e)] }) ∧
    (sysStep scriptRespond (sysStep scriptRespond
        { client := safeCall SafeVerb.set F (SafePayload.key K) opts uid { ready := true },
          env := ["Filter does not exist", e2], answered := 0, events := [] })).events =
      [(uid, Except.error e2)] ∧
    (sysStep scriptRespond (sysStep scriptRespond
        { client := safeCall SafeVerb.set F (SafePayload.key K) opts uid { ready := true },
          env := ["Filter does not exist", e2], answered := 0,
          events := [] })).client.sentArgs =
      [["s", F, K], "create" :: F :: opts.map (fun kv => kv.1 ++ "=" ++ kv.2)] := by
  have hC1 : safeCall SafeVerb.set F (SafePayload.key K) opts uid { ready := true } = ({ ready := true, commandQueue := [(⟨["s", F, K], RType.bool, Cb.safe SafeVerb.set F (SafePayload.key K) opts (Cb.user uid)⟩ : Command Cb)], offlineQueue := [], commandsSent := 1, sentLines := [String.intercalate " " ["s", F, K] ++ "\n"], sentArgs := [["s", F, K]] } : ClientState Cb) := by
    simp [safeCall, verbApply, BloomClient.set, BloomClient._process, BloomClient._send, okWrites, commandLine]
  have hs1 : sysStep scriptRespond ({ client := ({ ready := true, commandQueue := [(⟨["s", F, K], RType.bool, Cb.safe SafeVerb.set F (SafePayload.key K) opts (Cb.user uid)⟩ : Command Cb)], offlineQueue := [], commandsSent := 1, sentLines := [String.intercalate " " ["s", F, K] ++ "\n"], sentArgs := [["s", F, K]] } : ClientState Cb), env := ["Filter does not exist", e2], answered := 0, events := [] } : Sys (List String)) = ({ client := ({ ready := true, commandQueue := [(⟨"create" :: F :: opts.map (fun kv => kv.1 ++ "=" ++ kv.2), RType.confirmation, Cb.createCb SafeVerb.set F (SafePayload.key K) opts (Cb.user uid)⟩ : Command Cb)], offlineQueue := [], commandsSent := 2, sentLines := [String.intercalate " " ["s", F, K] ++ "\n", String.intercalate " " ("create" :: F :: opts.map (fun kv => kv.1 ++ "=" ++ kv.2)) ++ "\n"], sentArgs := [["s", F, K], "create" :: F :: opts.map (fun kv => kv.1 ++ "=" ++ kv.2)] } : ClientState Cb), env := [e2], answered := 1, events := [] } : Sys (List String)) := by
    simp [sysStep, scriptRespond, BloomClient._onReadable, BloomClient.truthy, decodeFrame, parseBool, parseConfirmation, frameMsg, runCb, BloomClient.create, verbApply, BloomClient._process, BloomClient._send, okWrites, commandLine, Except.map]
  have hbe : (e2 == "") = false := by simp [he0]
  have hs2 : sysStep scriptRespond ({ client := ({ ready := true, commandQueue := [(⟨"create" :: F :: opts.map (fun kv => kv.1 ++ "=" ++ kv.2), RType.confirmation, Cb.createCb SafeVerb.set F (SafePayload.key K) opts (Cb.user uid)⟩ : Command Cb)], offlineQueue := [], commandsSent := 2, sentLines := [String.intercalate " " ["s", F, K] ++ "\n", String.intercalate " " ("create" :: F :: opts.map (fun kv => kv.1 ++ "=" ++ kv.2)) ++ "\n"], sentArgs := [["s", F, K], "create" :: F :: opts.map (fun kv => kv.1 ++ "=" ++ kv.2)] } : ClientState Cb), env := [e2], answered := 1, events := [] } : Sys (List String)) = ({ client := ({ ready := true, commandQueue := [], offlineQueue := [], commandsSent := 2, sentLines := [String.intercalate " " ["s", F, K] ++ "\n", String.intercalate " " ("create" :: F :: opts.map (fun kv => kv.1 ++ "=" ++ kv.2)) ++ "\n"], sentArgs := [["s", F, K], "create" :: F :: opts.map (fun kv => kv.1 ++ "=" ++ kv.2)] } : ClientState Cb), env := ([] : List String), answered := 2, events := [(uid, Except.error e2)] } : Sys (List String)) := by
    simp [sysStep, scriptRespond, BloomClient._onReadable, BloomClient.truthy, decodeFrame, parseBool, parseConfirmation, frameMsg, runCb, BloomClient.create, verbApply, BloomClient._process, BloomClient._send, okWrites, commandLine, Except.map, Frame.single.injEq, he2, hbe]
  refine ⟨?_, ?_, ?_⟩
  · intro σ v F2 p opts2 uid2 s e
    rfl
  · rw [hC1, hs1, hs2]
  · rw [hC1, hs1, hs2]

theorem c7_witness :
    ((∀ (σ : Type) (v : SafeVerb) (F2 : String) (p : SafePayload)
        (opts2 : List (String × String)) (uid2 : Nat) (s : Sys σ) (e : String),
      runCb (Cb.createCb v F2 p opts2 (Cb.user uid2)) (Except.error e) s =
        { s with events := s.events ++ [(uid2, Except.error e)] }) ∧
    (sysStep scriptRespond (sysStep scriptRespond
        { client := safeCall SafeVerb.set "f" (SafePayload.key "k")
            [("capacity", "100")] 1 { ready := true },
          env := ["Filter does not exist", "Client Error: Bad arguments"], answered := 0,
          events := [] })).events =
      [(1, Except.error "Client Error: Bad arguments")] ∧
    (sysStep scriptRespond (sysStep scriptRespond
        { client := safeCall SafeVerb.set "f" (SafePayload.key "k")
            [("capacity", "100")] 1 { ready := true },
          env := ["Filter does not exist", "Client Error: Bad arguments"], answered := 0,
          events := [] })).client.sentArgs =
      [["s", "f", "k"],
        "create" :: "f" ::
          [("capacity", "100")].map (fun kv => kv.1 ++ "=" ++ kv.2)]) :=
  c7_safe_create_failure_surfaced "f" "k" [("capacity", "100")] 1
    "Client Error: Bad arguments" (by decide) (by decide)

/-- C4 (spec-modelled): while a `*Safe` command is in flight on filter
`F`, a later non-`create` command on `F` goes to the per-filter hold
queue (created at safe dispatch), appended FIFO, touching neither the
offline queue, nor the in-flight queue, nor the wire (first conjunct and
the next four); the safe sequence runs set → create → set, the user
callback fires, and only then are the held commands resubmitted, in FIFO
order, reaching the wire after the safe sequence and completing in order
afterwards. -/
theorem c4_hold_queue_serialises_safe (F K K2 K3 : String) (uid u2 u3 : Nat) :
    (∀ (st : HState) (c : HCommand) (fn : String), c.filterName = some fn →
      (c.verb != "create") = true → (alistGet st.filterHoldQueues fn).isSome = true →
      hSubmit false st c =
        { st with filterHoldQueues := alistSet st.filterHoldQueues fn ((alistGet st.filterHoldQueues fn).getD [] ++ [c]) }) ∧
    ((hSubmit false (hSubmit false (hSafeCall SafeVerb.set F (SafePayload.key K) [] uid { ready := true }) (hVerbCommand SafeVerb.set F (SafePayload.key K2) (Cb.user u2))) (hVerbCommand SafeVerb.check F (SafePayload.key K3) (Cb.user u3))).sentArgs = [["s", F, K]]) ∧
    ((hSubmit false (hSubmit false (hSafeCall SafeVerb.set F (SafePayload.key K) [] uid { ready := true }) (hVerbCommand SafeVerb.set F (SafePayload.key K2) (Cb.user u2))) (hVerbCommand SafeVerb.check F (SafePayload.key K3) (Cb.user u3))).commandQueue =
      [⟨"s", some F, ["s", F, K], RType.bool,
        Cb.safe SafeVerb.set F (SafePayload.key K) [] (Cb.user uid)⟩]) ∧
    ((hSubmit false (hSubmit false (hSafeCall SafeVerb.set F (SafePayload.key K) [] uid { ready := true }) (hVerbCommand SafeVerb.set F (SafePayload.key K2) (Cb.user u2))) (hVerbCommand SafeVerb.check F (SafePayload.key K3) (Cb.user u3))).offlineQueue = []) ∧
    (alistGet (hSubmit false (hSubmit false (hSafeCall SafeVerb.set F (SafePayload.key K) [] uid { ready := true }) (hVerbCommand SafeVerb.set F (SafePayload.key K2) (Cb.user u2))) (hVerbCommand SafeVerb.check F (SafePayload.key K3) (Cb.user u3))).filterHoldQueues F =
      some [⟨"s", some F, ["s", F, K2], RType.bool, Cb.user u2⟩,
        ⟨"c", some F, ["c", F, K3], RType.bool, Cb.user u3⟩]) ∧
    ((hStep (hStep (hStep ({ client := hSubmit false (hSubmit false (hSafeCall SafeVerb.set F (SafePayload.key K) [] uid { ready := true }) (hVerbCommand SafeVerb.set F (SafePayload.key K2) (Cb.user u2))) (hVerbCommand SafeVerb.check F (SafePayload.key K3) (Cb.user u3)), script := ["Filter does not exist", "Done", "Yes", "Yes", "Yes"], answered := 0, events := [] } : HSys)))).events = [(uid, Except.ok (RData.bool true))]) ∧
    ((hStep (hStep (hStep ({ client := hSubmit false (hSubmit false (hSafeCall SafeVerb.set F (SafePayload.key K) [] uid { ready := true }) (hVerbCommand SafeVerb.set F (SafePayload.key K2) (Cb.user u2))) (hVerbCommand SafeVerb.check F (SafePayload.key K3) (Cb.user u3)), script := ["Filter does not exist", "Done", "Yes", "Yes", "Yes"], answered := 0, events := [] } : HSys)))).client.sentArgs =
      [["s", F, K], ["create", F], ["s", F, K], ["s", F, K2], ["c", F, K3]]) ∧
    (alistGet (hStep (hStep (hStep ({ client := hSubmit false (hSubmit false (hSafeCall SafeVerb.set F (SafePayload.key K) [] uid { ready := true }) (hVerbCommand SafeVerb.set F (SafePayload.key K2) (Cb.user u2))) (hVerbCommand SafeVerb.check F (SafePayload.key K3) (Cb.user u3)), script := ["Filter does not exist", "Done", "Yes", "Yes", "Yes"], answered := 0, events := [] } : HSys)))).client.filterHoldQueues F = none) ∧
    ((hStep (hStep (hStep (hStep (hStep ({ client := hSubmit false (hSubmit false (hSafeCall SafeVerb.set F (SafePayload.key K) [] uid { ready := true }) (hVerbCommand SafeVerb.set F (SafePayload.key K2) (Cb.user u2))) (hVerbCommand SafeVerb.check F (SafePayload.key K3) (Cb.user u3)), script := ["Filter does not exist", "Done", "Yes", "Yes", "Yes"], answered := 0, events := [] } : HSys)))))).events =
      [(uid, Except.ok (RData.bool true)), (u2, Except.ok (RData.bool true)),
        (u3, Except.ok (RData.bool true))]) := by
  have hsub : hSubmit false (hSubmit false (hSafeCall SafeVerb.set F (SafePayload.key K) [] uid { ready := true }) (hVerbCommand SafeVerb.set F (SafePayload.key K2) (Cb.user u2))) (hVerbCommand SafeVerb.check F (SafePayload.key K3) (Cb.user u3)) = ({ ready := true, commandQueue := [(⟨"s", some F, ["s", F, K], RType.bool, Cb.safe SafeVerb.set F (SafePayload.key K) [] (Cb.user uid)⟩ : HCommand)], offlineQueue := [], filterHoldQueues := [(F, [(⟨"s", some F, ["s", F, K2], RType.bool, Cb.user u2⟩ : HCommand), (⟨"c", some F, ["c", F, K3], RType.bool, Cb.user u3⟩ : HCommand)])], commandsSent := 1, sentArgs := [["s", F, K]] } : HState) := by
    simp [hSafeCall, hVerbCommand, hSubmit, hSend, alistGet, alistSet]
  have hh1 : hStep ({ client := ({ ready := true, commandQueue := [(⟨"s", some F, ["s", F, K], RType.bool, Cb.safe SafeVerb.set F (SafePayload.key K) [] (Cb.user uid)⟩ : HCommand)], offlineQueue := [], filterHoldQueues := [(F, [(⟨"s", some F, ["s", F, K2], RType.bool, Cb.user u2⟩ : HCommand), (⟨"c", some F, ["c", F, K3], RType.bool, Cb.user u3⟩ : HCommand)])], commandsSent := 1, sentArgs := [["s", F, K]] } : HState), script := ["Filter does not exist", "Done", "Yes", "Yes", "Yes"], answered := 0, events := [] } : HSys) = ({ client := ({ ready := true, commandQueue := [(⟨"create", some F, ["create", F], RType.confirmation, Cb.createCb SafeVerb.set F (SafePayload.key K) [] (Cb.user uid)⟩ : HCommand)], offlineQueue := [], filterHoldQueues := [(F, [(⟨"s", some F, ["s", F, K2], RType.bool, Cb.user u2⟩ : HCommand), (⟨"c", some F, ["c", F, K3], RType.bool, Cb.user u3⟩ : HCommand)])], commandsSent := 2, sentArgs := [["s", F, K], ["create", F]] } : HState), script := ["Done", "Yes", "Yes", "Yes"], answered := 1, events := [] } : HSys) := by
    simp [hStep, hDecode, decodeFrame, parseBool, parseConfirmation, frameMsg, runHCb, hSubmit, hSend, hRelease, hCreateCommand, hVerbCommand, alistGet, alistSet, alistRemove, Except.map]
  have hh2 : hStep ({ client := ({ ready := true, commandQueue := [(⟨"create", some F, ["create", F], RType.confirmation, Cb.createCb SafeVerb.set F (SafePayload.key K) [] (Cb.user uid)⟩ : HCommand)], offlineQueue := [], filterHoldQueues := [(F, [(⟨"s", some F, ["s", F, K2], RType.bool, Cb.user u2⟩ : HCommand), (⟨"c", some F, ["c", F, K3], RType.bool, Cb.user u3⟩ : HCommand)])], commandsSent := 2, sentArgs := [["s", F, K], ["create", F]] } : HState), script := ["Done", "Yes", "Yes", "Yes"], answered := 1, events := [] } : HSys) = ({ client := ({ ready := true, commandQueue := [(⟨"s", some F, ["s", F, K], RType.bool, Cb.safe SafeVerb.set F (SafePayload.key K) [] (Cb.user uid)⟩ : HCommand)], offlineQueue := [], filterHoldQueues := [(F, [(⟨"s", some F, ["s", F, K2], RType.bool, Cb.user u2⟩ : HCommand), (⟨"c", some F, ["c", F, K3], RType.bool, Cb.user u3⟩ : HCommand)])], commandsSent := 3, sentArgs := [["s", F, K], ["create", F], ["s", F, K]] } : HState), script := ["Yes", "Yes", "Yes"], answered := 2, events := [] } : HSys) := by
    simp [hStep, hDecode, decodeFrame, parseBool, parseConfirmation, frameMsg, runHCb, hSubmit, hSend, hRelease, hCreateCommand, hVerbCommand, alistGet, alistSet, alistRemove, Except.map]
  have hh3 : hStep ({ client := ({ ready := true, commandQueue := [(⟨"s", some F, ["s", F, K], RType.bool, Cb.safe SafeVerb.set F (SafePayload.key K) [] (Cb.user uid)⟩ : HCommand)], offlineQueue := [], filterHoldQueues := [(F, [(⟨"s", some F, ["s", F, K2], RType.bool, Cb.user u2⟩ : HCommand), (⟨"c", some F, ["c", F, K3], RType.bool, Cb.user u3⟩ : HCommand)])], commandsSent := 3, sentArgs := [["s", F, K], ["create", F], ["s", F, K]] } : HState), script := ["Yes", "Yes", "Yes"], answered := 2, events := [] } : HSys) = ({ client := ({ ready := true, commandQueue := [(⟨"s", some F, ["s", F, K2], RType.bool, Cb.user u2⟩ : HCommand), (⟨"c", some F, ["c", F, K3], RType.bool, Cb.user u3⟩ : HCommand)], offlineQueue := [], filterHoldQueues := [], commandsSent := 5, sentArgs := [["s", F, K], ["create", F], ["s", F, K], ["s", F, K2], ["c", F, K3]] } : HState), script := ["Yes", "Yes"], answered := 3, events := [(uid, Except.ok (RData.bool true))] } : HSys) := by
    simp [hStep, hDecode, decodeFrame, parseBool, parseConfirmation, frameMsg, runHCb, hSubmit, hSend, hRelease, hCreateCommand, hVerbCommand, alistGet, alistSet, alistRemove, Except.map]
  have hh4 : hStep ({ client := ({ ready := true, commandQueue := [(⟨"s", some F, ["s", F, K2], RType.bool, Cb.user u2⟩ : HCommand), (⟨"c", some F, ["c", F, K3], RType.bool, Cb.user u3⟩ : HCommand)], offlineQueue := [], filterHoldQueues := [], commandsSent := 5, sentArgs := [["s", F, K], ["create", F], ["s", F, K], ["s", F, K2], ["c", F, K3]] } : HState), script := ["Yes", "Yes"], answered := 3, events := [(uid, Except.ok (RData.bool true))] } : HSys) = ({ client := ({ ready := true, commandQueue := [(⟨"c", some F, ["c", F, K3], RType.bool, Cb.user u3⟩ : HCommand)], offlineQueue := [], filterHoldQueues := [], commandsSent := 5, sentArgs := [["s", F, K], ["create", F], ["s", F, K], ["s", F, K2], ["c", F, K3]] } : HState), script := ["Yes"], answered := 4, events := [(uid, Except.ok (RData.bool true)), (u2, Except.ok (RData.bool true))] } : HSys) := by
    simp [hStep, hDecode, decodeFrame, parseBool, parseConfirmation, frameMsg, runHCb, hSubmit, hSend, hRelease, hCreateCommand, hVerbCommand, alistGet, alistSet, alistRemove, Except.map]
  have hh5 : hStep ({ client := ({ ready := true, commandQueue := [(⟨"c", some F, ["c", F, K3], RType.bool, Cb.user u3⟩ : HCommand)], offlineQueue := [], filterHoldQueues := [], commandsSent := 5, sentArgs := [["s", F, K], ["create", F], ["s", F, K], ["s", F, K2], ["c", F, K3]] } : HState), script := ["Yes"], answered := 4, events := [(uid, Except.ok (RData.bool true)), (u2, Except.ok (RData.bool true))] } : HSys) = ({ client := ({ ready := true, commandQueue := [], offlineQueue := [], filterHoldQueues := [], commandsSent := 5, sentArgs := [["s", F, K], ["create", F], ["s", F, K], ["s", F, K2], ["c", F, K3]] } : HState), script := ([] : List String), answered := 5, events := [(uid, Except.ok (RData.bool true)), (u2, Except.ok (RData.bool true)), (u3, Except.ok (RData.bool true))] } : HSys) := by
    simp [hStep, hDecode, decodeFrame, parseBool, parseConfirmation, frameMsg, runHCb, hSubmit, hSend, hRelease, hCreateCommand, hVerbCommand, alistGet, alistSet, alistRemove, Except.map]
  refine ⟨?_, ?_, ?_, ?_, ?_, ?_, ?_, ?_, ?_⟩
  · intro st c fn hfn hverb hhas
    rw [hSubmit]
    rw [hfn]
    simp only [hverb, hhas, Bool.not_false, Bool.and_self, Bool.true_and, if_true]
  · rw [hsub]
  · rw [hsub]
  · rw [hsub]
  · rw [hsub]
    simp [alistGet]
  · rw [hsub, hh1, hh2, hh3]
  · rw [hsub, hh1, hh2, hh3]
  · rw [hsub, hh1, hh2, hh3]
    simp [alistGet]
  · rw [hsub, hh1, hh2, hh3, hh4, hh5]

theorem c4_witness :
    ((∀ (st : HState) (c : HCommand) (fn : String), c.filterName = some fn →
      (c.verb != "create") = true → (alistGet st.filterHoldQueues fn).isSome = true →
      hSubmit false st c =
        { st with filterHoldQueues := alistSet st.filterHoldQueues fn ((alistGet st.filterHoldQueues fn).getD [] ++ [c]) }) ∧
    ((hSubmit false (hSubmit false (hSafeCall SafeVerb.set "f" (SafePayload.key "k") [] 1 { ready := true }) (hVerbCommand SafeVerb.set "f" (SafePayload.key "k2") (Cb.user 2))) (hVerbCommand SafeVerb.check "f" (SafePayload.key "k3") (Cb.user 3))).sentArgs = [["s", "f", "k"]]) ∧
    ((hSubmit false (hSubmit false (hSafeCall SafeVerb.set "f" (SafePayload.key "k") [] 1 { ready := true }) (hVerbCommand SafeVerb.set "f" (SafePayload.key "k2") (Cb.user 2))) (hVerbCommand SafeVerb.check "f" (SafePayload.key "k3") (Cb.user 3))).commandQueue =
      [⟨"s", some "f", ["s", "f", "k"], RType.bool,
        Cb.safe SafeVerb.set "f" (SafePayload.key "k") [] (Cb.user 1)⟩]) ∧
    ((hSubmit false (hSubmit false (hSafeCall SafeVerb.set "f" (SafePayload.key "k") [] 1 { ready := true }) (hVerbCommand SafeVerb.set "f" (SafePayload.key "k2") (Cb.user 2))) (hVerbCommand SafeVerb.check "f" (SafePayload.key "k3") (Cb.user 3))).offlineQueue = []) ∧
    (alistGet (hSubmit false (hSubmit false (hSafeCall SafeVerb.set "f" (SafePayload.key "k") [] 1 { ready := true }) (hVerbCommand SafeVerb.set "f" (SafePayload.key "k2") (Cb.user 2))) (hVerbCommand SafeVerb.check "f" (SafePayload.key "k3") (Cb.user 3))).filterHoldQueues "f" =
      some [⟨"s", some "f", ["s", "f", "k2"], RType.bool, Cb.user 2⟩,
        ⟨"c", some "f", ["c", "f", "k3"], RType.bool, Cb.user 3⟩]) ∧
    ((hStep (hStep (hStep ({ client := hSubmit false (hSubmit false (hSafeCall SafeVerb.set "f" (SafePayload.key "k") [] 1 { ready := true }) (hVerbCommand SafeVerb.set "f" (SafePayload.key "k2") (Cb.user 2))) (hVerbCommand SafeVerb.check "f" (SafePayload.key "k3") (Cb.user 3)), script := ["Filter does not exist", "Done", "Yes", "Yes", "Yes"], answered := 0, events := [] } : HSys)))).events = [(1, Except.ok (RData.bool true))]) ∧
    ((hStep (hStep (hStep ({ client := hSubmit false (hSubmit false (hSafeCall SafeVerb.set "f" (SafePayload.key "k") [] 1 { ready := true }) (hVerbCommand SafeVerb.set "f" (SafePayload.key "k2") (Cb.user 2))) (hVerbCommand SafeVerb.check "f" (SafePayload.key "k3") (Cb.user 3)), script := ["Filter does not exist", "Done", "Yes", "Yes", "Yes"], answered := 0, events := [] } : HSys)))).client.sentArgs =
      [["s", "f", "k"], ["create", "f"], ["s", "f", "k"], ["s", "f", "k2"], ["c", "f", "k3"]]) ∧
    (alistGet (hStep (hStep (hStep ({ client := hSubmit false (hSubmit false (hSafeCall SafeVerb.set "f" (SafePayload.key "k") [] 1 { ready := true }) (hVerbCommand SafeVerb.set "f" (SafePayload.key "k2") (Cb.user 2))) (hVerbCommand SafeVerb.check "f" (SafePayload.key "k3") (Cb.user 3)), script := ["Filter does not exist", "Done", "Yes", "Yes", "Yes"], answered := 0, events := [] } : HSys)))).client.filterHoldQueues "f" = none) ∧
    ((hStep (hStep (hStep (hStep (hStep ({ client := hSubmit false (hSubmit false (hSafeCall SafeVerb.set "f" (SafePayload.key "k") [] 1 { ready := true }) (hVerbCommand SafeVerb.set "f" (SafePayload.key "k2") (Cb.user 2))) (hVerbCommand SafeVerb.check "f" (SafePayload.key "k3") (Cb.user 3)), script := ["Filter does not exist", "Done", "Yes", "Yes", "Yes"], answered := 0, events := [] } : HSys)))))).events =
      [(1, Except.ok (RData.bool true)), (2, Except.ok (RData.bool true)),
        (3, Except.ok (RData.bool true))])) :=
  c4_hold_queue_serialises_safe "f" "k" "k2" "k3" 1 2 3

theorem c10_witness :
    heapGet (multiRef ⟨[["a", "b"]]⟩ "filter" 0 3).1 0 =
        "m" :: "filter" :: heapGet ⟨[["a", "b"]]⟩ 0 ∧
      (multiRef ⟨[["a", "b"]]⟩ "filter" 0 3).2.argumentsRef = 0 ∧
      heapGet (bulkRef ⟨[["a", "b"]]⟩ "filter" 0 3).1 0 =
        "b" :: "filter" :: heapGet ⟨[["a", "b"]]⟩ 0 ∧
      (bulkRef ⟨[["a", "b"]]⟩ "filter" 0 3).2.argumentsRef = 0 :=
  c10_multi_bulk_mutate_in_place ⟨[["a", "b"]]⟩ "filter" 0 3 (by decide)

end Bloomd
